import Mathlib

/-!
# A shallow embedding of the hierarchical timing wheel (`src/ttimer.c`)

The C code implements Varghese–Lauck hashed hierarchical timing wheels with
256 buckets per level (`WHEEL_BUCKETS`) and at most 3 levels
(`WHEEL_MAX_LEVELS`).  We embed the wheel state and the five operations
`ttimer_create`, `ttimer_setfunc`, `ttimer_start`, `ttimer_stop`,
`ttimer_tick` and `ttimer_run_ticks` as pure functions over an explicit
state.  Machine integers (`unsigned`, `time_t`) are modelled by `Nat`
(respectively `Int` for the signed `lastrun`/`now` values); `x >> 8` and
`x & 0xff` on the non-negative quantities involved are `x / 256` and
`x % 256`.  Callbacks are opaque: a reference carries a `func` tag
(`0` standing for a NULL pointer) and an `arg` tag, and an invocation is
recorded in a ghost event log rather than executed.  The intrusive
`LIST_*` membership of a reference is modelled by the reference's id
occurring in a bucket's list, head = most recent (`LIST_INSERT_HEAD`).
-/

namespace TTimer

/-- The scheduling fields of one timer reference (`struct ttimer_ref`).
`remaining` is `time_t ent->remaining` (never negative when written by the
code, hence `Nat`); `func = 0` models a NULL `ttimer_func_t`. -/
structure Ent where
  remaining : Nat
  func : Nat
  arg : Nat
  scheduled : Bool
deriving Repr, DecidableEq

/-- Ghost observation of tick processing: one event per reference popped from
the bucket being drained by `ttimer_tick`.  `fired id level n` records an
invocation of `id`'s callback while draining bucket `n` of level `level`;
`recascaded id level n rem lv bkt rem'` records that `id` was popped with
nonzero `ent->remaining = rem` and re-inserted through `ttimer_start`, which
placed it into bucket `bkt` of level `lv` with new remaining time `rem'`. -/
inductive Ev where
  | fired (id level n : Nat)
  | recascaded (id level n rem lv bkt rem' : Nat)
deriving Repr, DecidableEq

/-- The wheel (`struct ttimer` with its flexible array of `twheel_t` levels),
together with the caller-owned table `ents` of timer references that the C
code reaches through intrusive pointers, and the ghost event log.  `hand l`
is level `l`'s hand for `l < levels` (the C code keeps every hand `< 256`:
`calloc` zeroes it and every write is `MOD_BY_BUCKETS`; the embedding carries
that bound as `hand_lt`).  `bucket l s` lists the ids of the references
linked into slot `s` of level `l`. -/
structure TW where
  levels : Nat
  hand : Nat → Nat
  hand_lt : ∀ l, hand l < 256
  bucket : Nat → Nat → List Nat
  ents : Nat → Ent
  lastrun : Int
  log : List Ev

theorem TW.ext' {w w' : TW} (h1 : w.levels = w'.levels) (h2 : w.hand = w'.hand)
    (h3 : w.bucket = w'.bucket) (h4 : w.ents = w'.ents)
    (h5 : w.lastrun = w'.lastrun) (h6 : w.log = w'.log) : w = w' := by
  cases w; cases w'; simp_all

/-- The sizing loop of `ttimer_create`: `while (maxtimeout > 0) { maxtimeout
= DIV_BY_BUCKETS(maxtimeout); levels++; }`, i.e. the number of base-256
digits of `maxtimeout` (0 for `maxtimeout ≤ 0`). -/
def levelsFor (m : Nat) : Nat :=
  if m = 0 then 0 else levelsFor (m / 256) + 1
  termination_by m
  decreasing_by exact Nat.div_lt_self (Nat.pos_of_ne_zero (by assumption)) (by norm_num)

/-- `ttimer_create(maxtimeout, now)`: `levels = levels ? MIN(levels,
WHEEL_MAX_LEVELS) : WHEEL_MAX_LEVELS`, zeroed hands and buckets (`calloc`),
`lastrun = now`.  The reference table is not the wheel's storage (the caller
owns it); the model starts it all-idle. -/
def ttimer_create (maxtimeout now : Int) : TW :=
  { levels := if levelsFor maxtimeout.toNat = 0 then 3
              else min (levelsFor maxtimeout.toNat) 3
    hand := fun _ => 0
    hand_lt := fun _ => by norm_num
    bucket := fun _ _ => []
    ents := fun _ => ⟨0, 0, 0, false⟩
    lastrun := now
    log := [] }

/-- `ttimer_setfunc(ent, handler, arg)`: `ent->scheduled = false; ent->func =
handler; ent->arg = arg;`. -/
def ttimer_setfunc (w : TW) (id : Nat) (handler arg : Nat) : TW :=
  { w with ents :=
      Function.update w.ents id (Ent.mk (w.ents id).remaining handler arg false) }

/-- The placement loop of `ttimer_start` (`next:` label): at each level
`r = MOD_BY_BUCKETS(wheel->hand + timeout)`, `timeout =
DIV_BY_BUCKETS(wheel->hand + timeout)`; while `timeout > 0` accumulate
`r * multiplier` into the remaining time and move up a level, capped at
`WHEEL_MAX_LEVELS = 3`: at the cap, fold `multiplier * (timeout - 1)` into
the remaining time and stay on the last level.  Returns (level to insert at,
bucket index `r`, `ent->remaining`). -/
def startLoop (hand : Nat → Nat) (level timeout racc mult : Nat) :
    Nat × Nat × Nat :=
  let r := (hand level + timeout) % 256
  let q := (hand level + timeout) / 256
  if q = 0 then (level, r, racc)
  else if level + 1 < 3 then
    startLoop hand (level + 1) q (racc + r * mult) (mult * 256)
  else
    (level, r, racc + r * mult + mult * 256 * (q - 1))
  termination_by 3 - level

/-- `ttimer_start(timer, ent, timeout)` minus its assertions (the asserted
preconditions `timeout > 0`, `!ent->scheduled`, `ent->func != NULL` appear
as hypotheses of the theorems): run the placement loop from level 0 with
`ent->remaining = 0` and `multiplier = 1`, then `LIST_INSERT_HEAD` the
reference into the chosen bucket and mark it scheduled. -/
def ttimer_start (w : TW) (id : Nat) (timeout : Nat) : TW :=
  let p := startLoop w.hand 0 timeout 0 1
  { w with
    bucket :=
      Function.update w.bucket p.1
        (Function.update (w.bucket p.1) p.2.1 (id :: w.bucket p.1 p.2.1))
    ents :=
      Function.update w.ents id (Ent.mk p.2.2 (w.ents id).func (w.ents id).arg true) }

/-- `LIST_REMOVE(ent, entry)` followed by `ent->scheduled = false`: the
reference is unlinked from the bucket list holding it.  (`List.erase` removes
the first occurrence from each list; under the data-structure invariant the
id occurs in at most one list, once.) -/
def unlink (w : TW) (id : Nat) : TW :=
  { w with
    bucket := fun l s => (w.bucket l s).erase id
    ents :=
      Function.update w.ents id
        (Ent.mk (w.ents id).remaining (w.ents id).func (w.ents id).arg false) }

/-- `ttimer_stop(timer, ent)`: if scheduled, unlink and report `true`;
otherwise report `false` and change nothing. -/
def ttimer_stop (w : TW) (id : Nat) : Bool × TW :=
  if (w.ents id).scheduled then (true, unlink w id) else (false, w)

theorem sum_remWeight_le (l : List Nat) (f g : Nat → Ent)
    (h : ∀ i, (f i).remaining ≤ (g i).remaining) :
    (l.map (fun i => (f i).remaining + 1)).sum
      ≤ (l.map (fun i => (g i).remaining + 1)).sum := by
  induction l with
  | nil => simp
  | cons a l ih =>
    simp only [List.map_cons, List.sum_cons]
    exact Nat.add_le_add (Nat.add_le_add_right (h a) 1) ih

theorem startLoop_stop (hand : Nat → Nat) (level timeout racc mult : Nat)
    (h : (hand level + timeout) / 256 = 0) :
    startLoop hand level timeout racc mult
      = (level, (hand level + timeout) % 256, racc) := by
  rw [startLoop.eq_def]
  dsimp only
  rw [if_pos h]

theorem startLoop_cascade (hand : Nat → Nat) (level timeout racc mult : Nat)
    (h : (hand level + timeout) / 256 ≠ 0) (hl : level + 1 < 3) :
    startLoop hand level timeout racc mult
      = startLoop hand (level + 1) ((hand level + timeout) / 256)
          (racc + (hand level + timeout) % 256 * mult) (mult * 256) := by
  rw [startLoop.eq_def]
  dsimp only
  rw [if_neg h, if_pos hl]

theorem startLoop_clamp (hand : Nat → Nat) (level timeout racc mult : Nat)
    (h : (hand level + timeout) / 256 ≠ 0) (hl : ¬ level + 1 < 3) :
    startLoop hand level timeout racc mult
      = (level, (hand level + timeout) % 256,
          racc + (hand level + timeout) % 256 * mult
            + mult * 256 * ((hand level + timeout) / 256 - 1)) := by
  rw [startLoop.eq_def]
  dsimp only
  rw [if_neg h, if_neg hl]

/-- Full unfolding of the placement computation `startLoop hand 0 t 0 1`:
the four possible outcomes (insert at level 0, 1 or 2, or clamp at the top
level), written with the quotient/remainder chain of the C comment's
"digital clock" scheme. -/
theorem startLoop_spec (hand : Nat → Nat) (t : Nat) :
    startLoop hand 0 t 0 1 =
      (if (hand 0 + t) / 256 = 0 then (0, (hand 0 + t) % 256, 0)
       else if (hand 1 + (hand 0 + t) / 256) / 256 = 0 then
         (1, (hand 1 + (hand 0 + t) / 256) % 256, (hand 0 + t) % 256)
       else if (hand 2 + (hand 1 + (hand 0 + t) / 256) / 256) / 256 = 0 then
         (2, (hand 2 + (hand 1 + (hand 0 + t) / 256) / 256) % 256,
           (hand 0 + t) % 256 + (hand 1 + (hand 0 + t) / 256) % 256 * 256)
       else
         (2, (hand 2 + (hand 1 + (hand 0 + t) / 256) / 256) % 256,
           (hand 0 + t) % 256 + (hand 1 + (hand 0 + t) / 256) % 256 * 256
             + (hand 2 + (hand 1 + (hand 0 + t) / 256) / 256) % 256 * 65536
             + 16777216 * ((hand 2 + (hand 1 + (hand 0 + t) / 256) / 256) / 256 - 1))) := by
  by_cases h0 : (hand 0 + t) / 256 = 0
  · rw [startLoop_stop hand 0 t 0 1 h0, if_pos h0]
  · rw [startLoop_cascade hand 0 t 0 1 h0 (by norm_num), if_neg h0]
    by_cases h1 : (hand 1 + (hand 0 + t) / 256) / 256 = 0
    · rw [startLoop_stop hand 1 _ _ _ h1, if_pos h1]
      norm_num
    · rw [startLoop_cascade hand 1 _ _ _ h1 (by norm_num), if_neg h1]
      by_cases h2 : (hand 2 + (hand 1 + (hand 0 + t) / 256) / 256) / 256 = 0
      · rw [startLoop_stop hand 2 _ _ _ h2, if_pos h2]
        norm_num
      · rw [startLoop_clamp hand 2 _ _ _ h2 (by norm_num), if_neg h2]
        norm_num

/-- The re-insertion strictly shrinks the remaining time: with every hand
below 256, placing a positive timeout `t` yields `ent->remaining < t`.
This is the well-foundedness of re-cascading (and the measure that makes
the bucket-drain loop of `ttimer_tick` terminate). -/
theorem startLoop_rem_lt (hand : Nat → Nat) (hlt : ∀ l, hand l < 256)
    (t : Nat) (ht : 1 ≤ t) : (startLoop hand 0 t 0 1).2.2 < t := by
  have h0 := hlt 0
  have h1 := hlt 1
  have h2 := hlt 2
  rw [startLoop_spec]
  split_ifs <;> dsimp only <;> omega

theorem startLoop_level_lt (hand : Nat → Nat) (t : Nat) :
    (startLoop hand 0 t 0 1).1 < 3 := by
  rw [startLoop_spec]
  split_ifs <;> norm_num

/-- The drain loop of `ttimer_tick`:
`while ((ent = LIST_FIRST(&wheel->bucket[n])) != NULL) { ... }`.
Each pass pops the head reference, unlinks it, and either re-inserts it via
`ttimer_start` (nonzero remaining time) or fires its callback; both outcomes
are recorded in the ghost log.  A re-inserted reference can land back in the
very bucket being drained and is then popped again in the same call, which
is why termination rests on `startLoop_rem_lt`. -/
def drainBucket (w : TW) (level n : Nat) : TW :=
  match hb : w.bucket level n with
  | [] => w
  | id :: _ =>
    if hr : (w.ents id).remaining ≠ 0 then
      drainBucket
        { ttimer_start (unlink w id) id (w.ents id).remaining with
          log := w.log ++ [Ev.recascaded id level n (w.ents id).remaining
            (startLoop w.hand 0 (w.ents id).remaining 0 1).1
            (startLoop w.hand 0 (w.ents id).remaining 0 1).2.1
            (startLoop w.hand 0 (w.ents id).remaining 0 1).2.2] }
        level n
    else
      drainBucket { unlink w id with log := w.log ++ [Ev.fired id level n] } level n
  termination_by ((w.bucket level n).map (fun i => (w.ents i).remaining + 1)).sum
  decreasing_by
  · rename_i tl
    have hrem : (startLoop w.hand 0 (w.ents id).remaining 0 1).2.2
        < (w.ents id).remaining :=
      startLoop_rem_lt w.hand w.hand_lt _ (Nat.pos_of_ne_zero hr)
    simp only [ttimer_start, unlink, Function.update_idem, Function.update_same, hb,
      List.erase_cons_head]
    have hmono : ∀ i : Nat,
        ((Function.update w.ents id
          (Ent.mk (startLoop w.hand 0 (w.ents id).remaining 0 1).2.2
            (w.ents id).func (w.ents id).arg true)) i).remaining
          ≤ (w.ents i).remaining := by
      intro i
      rcases eq_or_ne i id with rfl | hne
      · rw [Function.update_same]
        exact hrem.le
      · rw [Function.update_noteq hne]
    rcases eq_or_ne (startLoop w.hand 0 (w.ents id).remaining 0 1).1 level with hL | hL
    · rw [hL, Function.update_same]
      rcases eq_or_ne (startLoop w.hand 0 (w.ents id).remaining 0 1).2.1 n with hN | hN
      · rw [hN, Function.update_same, hb, List.erase_cons_head]
        have hle := sum_remWeight_le tl _ w.ents hmono
        simp only [List.map_cons, List.sum_cons, Function.update_same]
        omega
      · rw [Function.update_noteq (Ne.symm hN)]
        have hle := sum_remWeight_le tl _ w.ents hmono
        simp only [hb, List.erase_cons_head, List.map_cons, List.sum_cons]
        omega
    · rw [Function.update_noteq (Ne.symm hL)]
      have hle := sum_remWeight_le tl _ w.ents hmono
      simp only [hb, List.erase_cons_head, List.map_cons, List.sum_cons]
      omega
  · rename_i tl
    have hmono : ∀ i : Nat,
        ((Function.update w.ents id
          (Ent.mk (w.ents id).remaining (w.ents id).func (w.ents id).arg false)) i).remaining
          ≤ (w.ents i).remaining := by
      intro i
      rcases eq_or_ne i id with rfl | hne
      · rw [Function.update_same]
      · rw [Function.update_noteq hne]
    simp only [unlink, hb, List.erase_cons_head, List.map_cons, List.sum_cons]
    have hle := sum_remWeight_le tl _ w.ents hmono
    omega

theorem drainBucket_nil {w : TW} {level n : Nat} (h : w.bucket level n = []) :
    drainBucket w level n = w := by
  rw [drainBucket]
  split
  · rfl
  · rename_i id tl hb
    rw [h] at hb
    exact absurd hb (by simp)

theorem drainBucket_cons_recascade {w : TW} {level n id : Nat} {tl : List Nat}
    (h : w.bucket level n = id :: tl) (hr : (w.ents id).remaining ≠ 0) :
    drainBucket w level n =
      drainBucket
        { ttimer_start (unlink w id) id (w.ents id).remaining with
          log := w.log ++ [Ev.recascaded id level n (w.ents id).remaining
            (startLoop w.hand 0 (w.ents id).remaining 0 1).1
            (startLoop w.hand 0 (w.ents id).remaining 0 1).2.1
            (startLoop w.hand 0 (w.ents id).remaining 0 1).2.2] }
        level n := by
  rw [drainBucket]
  split
  · rename_i hb
    rw [h] at hb
    exact absurd hb (by simp)
  · rename_i id2 tl2 hb
    rw [h] at hb
    injection hb with h1 h2
    subst h1
    subst h2
    rw [dif_pos hr]

theorem drainBucket_cons_fire {w : TW} {level n id : Nat} {tl : List Nat}
    (h : w.bucket level n = id :: tl) (hr : (w.ents id).remaining = 0) :
    drainBucket w level n =
      drainBucket { unlink w id with log := w.log ++ [Ev.fired id level n] } level n := by
  rw [drainBucket]
  split
  · rename_i hb
    rw [h] at hb
    exact absurd hb (by simp)
  · rename_i id2 tl2 hb
    rw [h] at hb
    injection hb with h1 h2
    subst h1
    subst h2
    rw [dif_neg (by simpa using hr)]

theorem drainBucket_levels (w : TW) (level n : Nat) :
    (drainBucket w level n).levels = w.levels := by
  induction w, level, n using drainBucket.induct with
  | case1 w level n hb => rw [drainBucket_nil hb]
  | case2 w level n id tl hb hr ih => rw [drainBucket_cons_recascade hb hr]; exact ih
  | case3 w level n id tl hb hr ih =>
    rw [drainBucket_cons_fire hb (by simpa using hr)]; exact ih

theorem drainBucket_hand (w : TW) (level n : Nat) :
    (drainBucket w level n).hand = w.hand := by
  induction w, level, n using drainBucket.induct with
  | case1 w level n hb => rw [drainBucket_nil hb]
  | case2 w level n id tl hb hr ih => rw [drainBucket_cons_recascade hb hr]; exact ih
  | case3 w level n id tl hb hr ih =>
    rw [drainBucket_cons_fire hb (by simpa using hr)]; exact ih

theorem drainBucket_lastrun (w : TW) (level n : Nat) :
    (drainBucket w level n).lastrun = w.lastrun := by
  induction w, level, n using drainBucket.induct with
  | case1 w level n hb => rw [drainBucket_nil hb]
  | case2 w level n id tl hb hr ih => rw [drainBucket_cons_recascade hb hr]; exact ih
  | case3 w level n id tl hb hr ih =>
    rw [drainBucket_cons_fire hb (by simpa using hr)]; exact ih

theorem update_hand_lt (w : TW) (level n : Nat) (h : n < 256) :
    ∀ l, Function.update w.hand level n l < 256 := by
  intro l
  rcases eq_or_ne l level with rfl | hne
  · simpa using h
  · simpa [Function.update_noteq hne] using w.hand_lt l

/-- `wheel->hand = n` (line 211 of `ttimer.c`). -/
def setHand (w : TW) (level n : Nat) (h : n < 256) : TW :=
  { w with hand := Function.update w.hand level n, hand_lt := update_hand_lt w level n h }

theorem setHand_levels (w : TW) (level n : Nat) (h : n < 256) :
    (setHand w level n h).levels = w.levels := rfl

/-- The level loop of `ttimer_tick` (`next:` label): advance to bucket
`n = MOD_BY_BUCKETS(wheel->hand + 1)`, drain it, store the new hand, and
process the next level when the hand wrapped to 0 and a next level exists
(`if (n == 0 && ++level < timer->levels) goto next;`). -/
def tickFrom (w : TW) (level : Nat) : TW :=
  let n := (w.hand level + 1) % 256
  let w2 := setHand (drainBucket w level n) level n (Nat.mod_lt _ (by norm_num))
  if n = 0 ∧ level + 1 < w2.levels then tickFrom w2 (level + 1) else w2
  termination_by w.levels - level
  decreasing_by
    rename_i hcond
    unfold_let w2 n at hcond ⊢
    rw [setHand_levels, drainBucket_levels] at hcond ⊢
    omega

/-- `ttimer_tick(timer)`: process one tick, starting at level 0. -/
def ttimer_tick (w : TW) : TW := tickFrom w 0

/-- `ttimer_run_ticks(timer, now)`: run one tick per whole unit since
`lastrun`, then set `lastrun = now` (unconditionally, as the C code does). -/
def ttimer_run_ticks (w : TW) (now : Int) : TW :=
  if w.lastrun < now then
    ttimer_run_ticks { ttimer_tick w with lastrun := w.lastrun + 1 } now
  else { w with lastrun := now }
  termination_by (now - w.lastrun).toNat
  decreasing_by
    rename_i h
    omega


/- ## Global-time view of a wheel

`ttimer_tick` advances the hands like a base-256 odometer: after `T` ticks
from creation, hand `l` holds digit `l` of `T` in base 256.  The lemmas
below develop this view for 3-level wheels, which carries the functional
correctness proofs for `ttimer_start`/`ttimer_tick`. -/

/-- Digit `l` of the global tick count `T` in base 256. -/
def dig (T l : Nat) : Nat := T / 256 ^ l % 256

theorem dig0_eq (T : Nat) : dig T 0 = T % 256 := by simp [dig]

theorem dig1_eq (T : Nat) : dig T 1 = T / 256 % 256 := by norm_num [dig]

theorem dig2_eq (T : Nat) : dig T 2 = T / 65536 % 256 := by norm_num [dig]

/-- The hands of a 3-level wheel at rest at global tick `T` (hands of levels
beyond the allocated ones stay 0, as `ttimer_create` left them). -/
def restHand (T : Nat) : Nat → Nat := fun l => if l < 3 then dig T l else 0

theorem restHand_lt (T : Nat) : ∀ l, restHand T l < 256 := by
  intro l
  unfold restHand dig
  split
  · exact Nat.mod_lt _ (by norm_num)
  · norm_num

theorem restHand0 (T : Nat) : restHand T 0 = T % 256 := by
  simp [restHand, dig0_eq]

theorem restHand1 (T : Nat) : restHand T 1 = T / 256 % 256 := by
  simp only [restHand, dig1_eq, if_pos (by norm_num : (1:Nat) < 3)]

theorem restHand2 (T : Nat) : restHand T 2 = T / 65536 % 256 := by
  simp only [restHand, dig2_eq, if_pos (by norm_num : (2:Nat) < 3)]

/-- No bucket holds any reference. -/
def emptyBkt : Nat → Nat → List Nat := fun _ _ => []

/-- Exactly one reference, `i`, linked into bucket `b` of level `l`. -/
def oneBkt (l b i : Nat) : Nat → Nat → List Nat :=
  fun l2 b2 => if l2 = l ∧ b2 = b then [i] else []

/-- A 3-level wheel at rest at global tick `T`. -/
def wheelAt (T : Nat) (bkt : Nat → Nat → List Nat) (e : Nat → Ent)
    (lr : Int) (lg : List Ev) : TW :=
  { levels := 3, hand := restHand T, hand_lt := restHand_lt T,
    bucket := bkt, ents := e, lastrun := lr, log := lg }

/-- A 3-level wheel at rest at tick `T` whose only pending timer is `i`,
linked into bucket `b` of level `l` with remaining time `rem`. -/
def loaded (T l b rem i f a : Nat) (e0 : Nat → Ent) (lr : Int)
    (lg : List Ev) : TW :=
  wheelAt T (oneBkt l b i) (Function.update e0 i (Ent.mk rem f a true)) lr lg

/-- A 3-level wheel at rest at tick `T` with no pending timer; reference `i`
is unscheduled with remaining 0 (its state after firing). -/
def idle (T i f a : Nat) (e0 : Nat → Ent) (lr : Int) (lg : List Ev) : TW :=
  wheelAt T emptyBkt (Function.update e0 i (Ent.mk 0 f a false)) lr lg

/-- The first global tick strictly after `T` at which `ttimer_tick`
processes bucket `b` of level `l`: level `l` is reached when every lower
hand wraps to 0 (`256 ^ l` divides the tick count) and the bucket then
drained is the one the level-`l` hand advances onto. -/
def drainT (T l b : Nat) : Nat :=
  if T / 256 ^ (l + 1) * 256 ^ (l + 1) + b * 256 ^ l ≤ T
  then T / 256 ^ (l + 1) * 256 ^ (l + 1) + b * 256 ^ l + 256 ^ (l + 1)
  else T / 256 ^ (l + 1) * 256 ^ (l + 1) + b * 256 ^ l

/-- `drainT` is the unique time in `(T, T + 256 ^ (l + 1)]` congruent to
`b * 256 ^ l` modulo `256 ^ (l + 1)`. -/
theorem drainT_char (T l b S : Nat) (hl : l < 3) (hb : b < 256) :
    drainT T l b = S
      ↔ T < S ∧ S % 256 ^ (l + 1) = b * 256 ^ l ∧ S ≤ T + 256 ^ (l + 1) := by
  interval_cases l <;>
    · simp only [drainT]
      norm_num
      split_ifs <;> (constructor <;> intro h <;> omega)

theorem drainT_gt (T l b : Nat) (hl : l < 3) (hb : b < 256) :
    T < drainT T l b :=
  ((drainT_char T l b _ hl hb).mp rfl).1

theorem drainT_mod (T l b : Nat) (hl : l < 3) (hb : b < 256) :
    drainT T l b % 256 ^ (l + 1) = b * 256 ^ l :=
  ((drainT_char T l b _ hl hb).mp rfl).2.1

theorem drainT_le (T l b : Nat) (hl : l < 3) (hb : b < 256) :
    drainT T l b ≤ T + 256 ^ (l + 1) :=
  ((drainT_char T l b _ hl hb).mp rfl).2.2

/-- A tick that does not reach the bucket leaves its next drain time put. -/
theorem drainT_succ (T l b : Nat) (hl : l < 3) (hb : b < 256)
    (h : drainT T l b ≠ T + 1) : drainT (T + 1) l b = drainT T l b := by
  have h1 := (drainT_char T l b _ hl hb).mp rfl
  exact (drainT_char (T + 1) l b _ hl hb).mpr ⟨by omega, h1.2.1, by omega⟩

theorem drainT_eq_succ (T l b : Nat) (hl : l < 3) (hb : b < 256)
    (h : (T + 1) % 256 ^ (l + 1) = b * 256 ^ l) : drainT T l b = T + 1 := by
  have hp : 0 < 256 ^ (l + 1) := Nat.pos_pow_of_pos _ (by norm_num)
  exact (drainT_char T l b _ hl hb).mpr ⟨by omega, h, by omega⟩

/-- `true` for a `fired` event of reference `i`. -/
def isFireOf (e : Ev) (i : Nat) : Bool :=
  match e with
  | Ev.fired j _ _ => j == i
  | Ev.recascaded _ _ _ _ _ _ _ => false

/-- How many times reference `i`'s callback has been invoked, per the log. -/
def firedCount (lg : List Ev) (i : Nat) : Nat :=
  (lg.filter fun e => isFireOf e i).length

theorem firedCount_append (a b : List Ev) (i : Nat) :
    firedCount (a ++ b) i = firedCount a i + firedCount b i := by
  simp [firedCount, List.filter_append]

theorem oneBkt_same (l b i : Nat) : oneBkt l b i l b = [i] := by simp [oneBkt]

theorem oneBkt_other {l2 b2 : Nat} (l b i : Nat) (h : ¬(l2 = l ∧ b2 = b)) :
    oneBkt l b i l2 b2 = [] := by simp [oneBkt, h]

theorem ttimer_start_empty (w : TW) (e0 : Nat → Ent) (i f a r0 t : Nat)
    (hbkt : w.bucket = emptyBkt)
    (hents : w.ents = Function.update e0 i (Ent.mk r0 f a false)) :
    ttimer_start w i t
      = { w with
          bucket := oneBkt (startLoop w.hand 0 t 0 1).1
            (startLoop w.hand 0 t 0 1).2.1 i
          ents := Function.update e0 i
            (Ent.mk (startLoop w.hand 0 t 0 1).2.2 f a true) } := by
  unfold ttimer_start
  dsimp only
  refine TW.ext' rfl rfl ?_ ?_ rfl rfl
  · rw [hbkt]
    funext l2 s2
    dsimp only
    unfold emptyBkt oneBkt
    rcases eq_or_ne l2 (startLoop w.hand 0 t 0 1).1 with rfl | hL
    · rw [Function.update_same]
      rcases eq_or_ne s2 (startLoop w.hand 0 t 0 1).2.1 with rfl | hS
      · rw [Function.update_same]
        simp
      · rw [Function.update_noteq hS]
        simp [hS]
    · rw [Function.update_noteq hL]
      simp [hL]
  · dsimp only
    rw [hents]
    rw [Function.update_idem, Function.update_same]

theorem unlink_one (w : TW) (e0 : Nat → Ent) (l b i rem f a : Nat)
    (hbkt : w.bucket = oneBkt l b i)
    (hents : w.ents = Function.update e0 i (Ent.mk rem f a true)) :
    unlink w i
      = { w with
          bucket := emptyBkt
          ents := Function.update e0 i (Ent.mk rem f a false) } := by
  unfold unlink
  refine TW.ext' rfl rfl ?_ ?_ rfl rfl
  · rw [hbkt]
    funext l2 s2
    dsimp only
    unfold oneBkt emptyBkt
    split <;> simp
  · dsimp only
    rw [hents]
    rw [Function.update_idem, Function.update_same]

theorem drainBucket_of_empty (w : TW) (l n : Nat) (hbkt : w.bucket = emptyBkt) :
    drainBucket w l n = w :=
  drainBucket_nil (by rw [hbkt]; rfl)

theorem drainBucket_of_one_other (w : TW) {l2 n : Nat} (l b i : Nat)
    (hbkt : w.bucket = oneBkt l b i) (h : ¬(l2 = l ∧ n = b)) :
    drainBucket w l2 n = w :=
  drainBucket_nil (by rw [hbkt]; exact oneBkt_other l b i h)

theorem restHand_succ0 (T : Nat) (h : (T + 1) % 256 ≠ 0) :
    Function.update (restHand T) 0 ((T + 1) % 256) = restHand (T + 1) := by
  funext j
  match j with
  | 0 => rw [Function.update_same, restHand0]
  | 1 =>
    rw [Function.update_noteq (by norm_num), restHand1, restHand1]
    omega
  | 2 =>
    rw [Function.update_noteq (by norm_num), restHand2, restHand2]
    omega
  | (j + 3) =>
    rw [Function.update_noteq (by omega)]
    simp [restHand]

theorem restHand_succ1 (T : Nat) (h0 : (T + 1) % 256 = 0)
    (h1 : (T + 1) / 256 % 256 ≠ 0) :
    Function.update (Function.update (restHand T) 0 0) 1 ((T + 1) / 256 % 256)
      = restHand (T + 1) := by
  funext j
  match j with
  | 0 =>
    rw [Function.update_noteq (by norm_num), Function.update_same, restHand0]
    omega
  | 1 => rw [Function.update_same, restHand1]
  | 2 =>
    rw [Function.update_noteq (by norm_num), Function.update_noteq (by norm_num),
      restHand2, restHand2]
    omega
  | (j + 3) =>
    rw [Function.update_noteq (by omega), Function.update_noteq (by omega)]
    simp [restHand]

theorem restHand_succ2 (T : Nat) (h0 : (T + 1) % 256 = 0)
    (h1 : (T + 1) / 256 % 256 = 0) :
    Function.update (Function.update (Function.update (restHand T) 0 0) 1 0) 2
        ((T + 1) / 65536 % 256)
      = restHand (T + 1) := by
  funext j
  match j with
  | 0 =>
    rw [Function.update_noteq (by norm_num), Function.update_noteq (by norm_num),
      Function.update_same, restHand0]
    omega
  | 1 =>
    rw [Function.update_noteq (by norm_num), Function.update_same, restHand1]
    omega
  | 2 => rw [Function.update_same, restHand2]
  | (j + 3) =>
    rw [Function.update_noteq (by omega), Function.update_noteq (by omega),
      Function.update_noteq (by omega)]
    simp [restHand]

theorem loaded_hand (T l b rem i f a : Nat) (e0 : Nat → Ent) (lr : Int)
    (lg : List Ev) : (loaded T l b rem i f a e0 lr lg).hand = restHand T := rfl

theorem loaded_levels (T l b rem i f a : Nat) (e0 : Nat → Ent) (lr : Int)
    (lg : List Ev) : (loaded T l b rem i f a e0 lr lg).levels = 3 := rfl

theorem loaded_bucket (T l b rem i f a : Nat) (e0 : Nat → Ent) (lr : Int)
    (lg : List Ev) : (loaded T l b rem i f a e0 lr lg).bucket = oneBkt l b i := rfl

theorem loaded_ents (T l b rem i f a : Nat) (e0 : Nat → Ent) (lr : Int)
    (lg : List Ev) : (loaded T l b rem i f a e0 lr lg).ents
      = Function.update e0 i (Ent.mk rem f a true) := rfl

theorem loaded_log (T l b rem i f a : Nat) (e0 : Nat → Ent) (lr : Int)
    (lg : List Ev) : (loaded T l b rem i f a e0 lr lg).log = lg := rfl

theorem loaded_lastrun (T l b rem i f a : Nat) (e0 : Nat → Ent) (lr : Int)
    (lg : List Ev) : (loaded T l b rem i f a e0 lr lg).lastrun = lr := rfl

theorem setHand_hand (w : TW) (level n : Nat) (h : n < 256) :
    (setHand w level n h).hand = Function.update w.hand level n := rfl

theorem setHand_bucket (w : TW) (level n : Nat) (h : n < 256) :
    (setHand w level n h).bucket = w.bucket := rfl

theorem setHand_ents (w : TW) (level n : Nat) (h : n < 256) :
    (setHand w level n h).ents = w.ents := rfl

theorem setHand_log (w : TW) (level n : Nat) (h : n < 256) :
    (setHand w level n h).log = w.log := rfl

theorem setHand_lastrun (w : TW) (level n : Nat) (h : n < 256) :
    (setHand w level n h).lastrun = w.lastrun := rfl

/-- Hands as they stand mid-tick: levels below `j` already advanced to their
digits of `T + 1` (all zero when a cascade is in progress), levels from `j`
up still at their digits of `T`. -/
def handMix (T j : Nat) : Nat → Nat := fun l => if l < j then dig (T + 1) l else restHand T l

theorem handMix_lt (T j : Nat) : ∀ l, handMix T j l < 256 := by
  intro l
  unfold handMix dig
  split
  · exact Nat.mod_lt _ (by norm_num)
  · exact restHand_lt T l

/-- A 3-level wheel mid-tick, about to process level `j`. -/
def wheelMix (T j : Nat) (bkt : Nat → Nat → List Nat) (e : Nat → Ent)
    (lr : Int) (lg : List Ev) : TW :=
  { levels := 3, hand := handMix T j, hand_lt := handMix_lt T j,
    bucket := bkt, ents := e, lastrun := lr, log := lg }

theorem handMix_zero (T : Nat) : handMix T 0 = restHand T := by
  funext l
  simp [handMix]

theorem handMix_three (T : Nat) : handMix T 3 = restHand (T + 1) := by
  funext l
  unfold handMix restHand
  rcases lt_or_ge l 3 with h | h
  · rw [if_pos h, if_pos h]
  · rw [if_neg (by omega), if_neg (by omega), if_neg (by omega)]

theorem wheelMix_zero (T : Nat) (bkt : Nat → Nat → List Nat) (e : Nat → Ent)
    (lr : Int) (lg : List Ev) : wheelMix T 0 bkt e lr lg = wheelAt T bkt e lr lg := by
  refine TW.ext' rfl ?_ rfl rfl rfl rfl
  exact handMix_zero T

theorem wheelMix_hand (T j : Nat) (bkt : Nat → Nat → List Nat) (e : Nat → Ent)
    (lr : Int) (lg : List Ev) : (wheelMix T j bkt e lr lg).hand = handMix T j := rfl

theorem wheelMix_bucket (T j : Nat) (bkt : Nat → Nat → List Nat) (e : Nat → Ent)
    (lr : Int) (lg : List Ev) : (wheelMix T j bkt e lr lg).bucket = bkt := rfl

theorem wheelMix_ents (T j : Nat) (bkt : Nat → Nat → List Nat) (e : Nat → Ent)
    (lr : Int) (lg : List Ev) : (wheelMix T j bkt e lr lg).ents = e := rfl

theorem wheelMix_levels (T j : Nat) (bkt : Nat → Nat → List Nat) (e : Nat → Ent)
    (lr : Int) (lg : List Ev) : (wheelMix T j bkt e lr lg).levels = 3 := rfl

/-- Advancing the level-`j` hand onto digit `j` of `T + 1` turns the mid-tick
hands for level `j` into those for level `j + 1`. -/
theorem handMix_step (T j : Nat) (hdiv : (T + 1) % 256 ^ j = 0) :
    Function.update (handMix T j) j (dig (T + 1) j) = handMix T (j + 1) := by
  funext l
  rcases eq_or_ne l j with rfl | hne
  · rw [Function.update_same]
    simp [handMix]
  · rw [Function.update_noteq hne]
    unfold handMix
    rcases lt_or_ge l j with h | h
    · rw [if_pos h, if_pos (by omega)]
    · rw [if_neg (by omega), if_neg (by omega)]

/-- The hand the tick reads at level `j`, advanced by one modulo 256, is
digit `j` of `T + 1` whenever the cascade reached level `j`. -/
theorem handMix_next (T j : Nat) (hj : j < 3) (hdiv : (T + 1) % 256 ^ j = 0) :
    (handMix T j j + 1) % 256 = dig (T + 1) j := by
  have h1 : handMix T j j = restHand T j := by simp [handMix]
  rw [h1]
  unfold restHand dig
  rw [if_pos hj]
  interval_cases j <;> norm_num at hdiv ⊢ <;> omega

/-- When the cascade stops at level `j` (its new digit is nonzero), the
mid-tick hands for level `j + 1` already equal the at-rest hands of `T + 1`:
no carry propagates further. -/
theorem handMix_stop (T j : Nat) (hj : j < 3) (hdiv : (T + 1) % 256 ^ j = 0)
    (hnz : dig (T + 1) j ≠ 0) : handMix T (j + 1) = restHand (T + 1) := by
  funext l
  unfold handMix restHand
  rcases lt_or_ge l (j + 1) with h | h
  · rw [if_pos h, if_pos (by omega)]
  · rw [if_neg (by omega)]
    rcases lt_or_ge l 3 with h3 | h3
    · rw [if_pos h3, if_pos h3]
      unfold dig at hnz ⊢
      interval_cases j <;> interval_cases l <;> norm_num at hdiv hnz ⊢ <;> omega
    · rw [if_neg (by omega), if_neg (by omega)]

/-- The tail of a tick from level 2 on, when every probed bucket is empty:
only the level-2 hand advances. -/
theorem tickFrom_above2 (T : Nat) (bkt : Nat → Nat → List Nat) (e : Nat → Ent)
    (lr : Int) (lg : List Ev) (hdiv : (T + 1) % 65536 = 0)
    (hemp : bkt 2 (dig (T + 1) 2) = []) :
    tickFrom (wheelMix T 2 bkt e lr lg) 2 = wheelAt (T + 1) bkt e lr lg := by
  have hdiv' : (T + 1) % 256 ^ 2 = 0 := by norm_num [hdiv]
  have hn := handMix_next T 2 (by norm_num) hdiv'
  have hd : drainBucket (wheelMix T 2 bkt e lr lg) 2 (dig (T + 1) 2)
      = wheelMix T 2 bkt e lr lg :=
    drainBucket_nil (by rw [wheelMix_bucket]; exact hemp)
  rw [tickFrom.eq_def]
  dsimp only
  simp only [wheelMix_hand, hn, hd, setHand_levels, wheelMix_levels]
  rw [if_neg (by norm_num)]
  refine TW.ext' rfl ?_ rfl rfl rfl rfl
  rw [setHand_hand, wheelMix_hand, handMix_step T 2 hdiv', handMix_three]
  rfl

/-- The tail of a tick from level 1 on, when every probed bucket is empty. -/
theorem tickFrom_above1 (T : Nat) (bkt : Nat → Nat → List Nat) (e : Nat → Ent)
    (lr : Int) (lg : List Ev) (hdiv : (T + 1) % 256 = 0)
    (hemp1 : bkt 1 (dig (T + 1) 1) = [])
    (hemp2 : (T + 1) % 65536 = 0 → bkt 2 (dig (T + 1) 2) = []) :
    tickFrom (wheelMix T 1 bkt e lr lg) 1 = wheelAt (T + 1) bkt e lr lg := by
  have hdiv' : (T + 1) % 256 ^ 1 = 0 := by norm_num [hdiv]
  have hn := handMix_next T 1 (by norm_num) hdiv'
  have hd : drainBucket (wheelMix T 1 bkt e lr lg) 1 (dig (T + 1) 1)
      = wheelMix T 1 bkt e lr lg :=
    drainBucket_nil (by rw [wheelMix_bucket]; exact hemp1)
  rw [tickFrom.eq_def]
  dsimp only
  simp only [wheelMix_hand, hn, hd, setHand_levels, wheelMix_levels]
  have hstep : setHand (wheelMix T 1 bkt e lr lg) 1 (dig (T + 1) 1)
        (Nat.mod_lt _ (by norm_num)) = wheelMix T 2 bkt e lr lg := by
    refine TW.ext' rfl ?_ rfl rfl rfl rfl
    rw [setHand_hand, wheelMix_hand, handMix_step T 1 hdiv']
    rfl
  by_cases hz : dig (T + 1) 1 = 0
  · rw [if_pos ⟨hz, by norm_num⟩, hstep]
    have hdiv2 : (T + 1) % 65536 = 0 := by
      rw [dig1_eq] at hz
      omega
    exact tickFrom_above2 T bkt e lr lg hdiv2 (hemp2 hdiv2)
  · rw [if_neg (by simp [hz]), hstep]
    refine TW.ext' rfl ?_ rfl rfl rfl rfl
    rw [wheelMix_hand, handMix_stop T 1 (by norm_num) hdiv' hz]
    rfl

/-- A whole tick on a wheel none of whose probed buckets holds a reference:
the hands advance to the digits of `T + 1` and nothing else changes. -/
theorem tickFrom_above0 (T : Nat) (bkt : Nat → Nat → List Nat) (e : Nat → Ent)
    (lr : Int) (lg : List Ev)
    (hemp0 : bkt 0 (dig (T + 1) 0) = [])
    (hemp1 : (T + 1) % 256 = 0 → bkt 1 (dig (T + 1) 1) = [])
    (hemp2 : (T + 1) % 65536 = 0 → bkt 2 (dig (T + 1) 2) = []) :
    tickFrom (wheelMix T 0 bkt e lr lg) 0 = wheelAt (T + 1) bkt e lr lg := by
  have hdiv' : (T + 1) % 256 ^ 0 = 0 := by rw [pow_zero, Nat.mod_one]
  have hn := handMix_next T 0 (by norm_num) hdiv'
  have hd : drainBucket (wheelMix T 0 bkt e lr lg) 0 (dig (T + 1) 0)
      = wheelMix T 0 bkt e lr lg :=
    drainBucket_nil (by rw [wheelMix_bucket]; exact hemp0)
  rw [tickFrom.eq_def]
  dsimp only
  simp only [wheelMix_hand, hn, hd, setHand_levels, wheelMix_levels]
  have hstep : setHand (wheelMix T 0 bkt e lr lg) 0 (dig (T + 1) 0)
        (Nat.mod_lt _ (by norm_num)) = wheelMix T 1 bkt e lr lg := by
    refine TW.ext' rfl ?_ rfl rfl rfl rfl
    rw [setHand_hand, wheelMix_hand, handMix_step T 0 hdiv']
    rfl
  by_cases hz : dig (T + 1) 0 = 0
  · rw [if_pos ⟨hz, by norm_num⟩, hstep]
    have hdiv1 : (T + 1) % 256 = 0 := by
      rw [dig0_eq] at hz
      omega
    exact tickFrom_above1 T bkt e lr lg hdiv1 (hemp1 hdiv1) hemp2
  · rw [if_neg (by simp [hz]), hstep]
    refine TW.ext' rfl ?_ rfl rfl rfl rfl
    rw [wheelMix_hand, handMix_stop T 0 (by norm_num) hdiv' hz]
    rfl

theorem loaded_eq_mix (T l b rem i f a : Nat) (e0 : Nat → Ent) (lr : Int)
    (lg : List Ev) :
    loaded T l b rem i f a e0 lr lg
      = wheelMix T 0 (oneBkt l b i) (Function.update e0 i (Ent.mk rem f a true)) lr lg := by
  refine TW.ext' rfl ?_ rfl rfl rfl rfl
  rw [loaded_hand, wheelMix_hand, handMix_zero]

/-- One `ttimer_tick` on a single-timer wheel at rest whose timer's bucket is
not reached this tick: the hands advance one position (with carries) and
nothing else changes. -/
theorem tick_no_touch (T l b rem i f a : Nat) (e0 : Nat → Ent) (lr : Int)
    (lg : List Ev) (hl : l < 3) (hb : b < 256)
    (hno : drainT T l b ≠ T + 1) :
    ttimer_tick (loaded T l b rem i f a e0 lr lg)
      = loaded (T + 1) l b rem i f a e0 lr lg := by
  have hnot : ¬ (T + 1) % 256 ^ (l + 1) = b * 256 ^ l := fun hc =>
    hno (drainT_eq_succ T l b hl hb hc)
  unfold ttimer_tick
  rw [loaded_eq_mix]
  rw [tickFrom_above0 T _ _ lr lg ?q0 ?q1 ?q2]
  case q0 =>
    refine oneBkt_other l b i ?_
    rintro ⟨rfl, rfl⟩
    refine hnot ?_
    rw [dig0_eq]
    norm_num
  case q1 =>
    intro hdiv
    refine oneBkt_other l b i ?_
    rintro ⟨rfl, rfl⟩
    refine hnot ?_
    rw [dig1_eq]
    norm_num
    omega
  case q2 =>
    intro hdiv
    refine oneBkt_other l b i ?_
    rintro ⟨rfl, rfl⟩
    refine hnot ?_
    rw [dig2_eq]
    norm_num
    omega
  rfl

/-- The level-0 pass of a tick that will cascade: bucket 0 of level 0 is
empty, the hand wraps to 0, processing moves to level 1. -/
theorem tickFrom_reach1 (T : Nat) (bkt : Nat → Nat → List Nat) (e : Nat → Ent)
    (lr : Int) (lg : List Ev) (hdiv : (T + 1) % 256 = 0)
    (hemp0 : bkt 0 (dig (T + 1) 0) = []) :
    tickFrom (wheelMix T 0 bkt e lr lg) 0 = tickFrom (wheelMix T 1 bkt e lr lg) 1 := by
  have hdiv' : (T + 1) % 256 ^ 0 = 0 := by rw [pow_zero, Nat.mod_one]
  have hn := handMix_next T 0 (by norm_num) hdiv'
  have hz : dig (T + 1) 0 = 0 := by rw [dig0_eq]; omega
  have hd : drainBucket (wheelMix T 0 bkt e lr lg) 0 (dig (T + 1) 0)
      = wheelMix T 0 bkt e lr lg :=
    drainBucket_nil (by rw [wheelMix_bucket]; exact hemp0)
  rw [tickFrom.eq_def]
  dsimp only
  simp only [wheelMix_hand, hn, hd, setHand_levels, wheelMix_levels]
  rw [if_pos ⟨hz, by norm_num⟩]
  have hstep : setHand (wheelMix T 0 bkt e lr lg) 0 (dig (T + 1) 0)
        (Nat.mod_lt _ (by norm_num)) = wheelMix T 1 bkt e lr lg := by
    refine TW.ext' rfl ?_ rfl rfl rfl rfl
    rw [setHand_hand, wheelMix_hand, handMix_step T 0 hdiv']
    rfl
  rw [hstep]

/-- The level-1 pass of a tick that will cascade to level 2. -/
theorem tickFrom_reach2 (T : Nat) (bkt : Nat → Nat → List Nat) (e : Nat → Ent)
    (lr : Int) (lg : List Ev) (hdiv : (T + 1) % 65536 = 0)
    (hemp1 : bkt 1 (dig (T + 1) 1) = []) :
    tickFrom (wheelMix T 1 bkt e lr lg) 1 = tickFrom (wheelMix T 2 bkt e lr lg) 2 := by
  have hdiv' : (T + 1) % 256 ^ 1 = 0 := by rw [pow_one]; omega
  have hn := handMix_next T 1 (by norm_num) hdiv'
  have hz : dig (T + 1) 1 = 0 := by rw [dig1_eq]; omega
  have hd : drainBucket (wheelMix T 1 bkt e lr lg) 1 (dig (T + 1) 1)
      = wheelMix T 1 bkt e lr lg :=
    drainBucket_nil (by rw [wheelMix_bucket]; exact hemp1)
  rw [tickFrom.eq_def]
  dsimp only
  simp only [wheelMix_hand, hn, hd, setHand_levels, wheelMix_levels]
  rw [if_pos ⟨hz, by norm_num⟩]
  have hstep : setHand (wheelMix T 1 bkt e lr lg) 1 (dig (T + 1) 1)
        (Nat.mod_lt _ (by norm_num)) = wheelMix T 2 bkt e lr lg := by
    refine TW.ext' rfl ?_ rfl rfl rfl rfl
    rw [setHand_hand, wheelMix_hand, handMix_step T 1 hdiv']
    rfl
  rw [hstep]

/-- One `ttimer_tick` on a single-timer wheel at rest that reaches the
timer's bucket while its remaining time is 0: the callback fires, the
reference is left unscheduled, the hands advance. -/
theorem tick_fire (T l b i f a : Nat) (e0 : Nat → Ent) (lr : Int) (lg : List Ev)
    (hl : l < 3) (hb : b < 256) (hdr : drainT T l b = T + 1) :
    ttimer_tick (loaded T l b 0 i f a e0 lr lg)
      = idle (T + 1) i f a e0 lr (lg ++ [Ev.fired i l b]) := by
  have hcong : (T + 1) % 256 ^ (l + 1) = b * 256 ^ l := hdr ▸ drainT_mod T l b hl hb
  unfold ttimer_tick
  rw [loaded_eq_mix]
  unfold idle wheelAt
  interval_cases l
  · -- fires while draining level 0
    norm_num at hcong
    have hdig : dig (T + 1) 0 = b := by rw [dig0_eq]; omega
    have hdiv' : (T + 1) % 256 ^ 0 = 0 := by rw [pow_zero, Nat.mod_one]
    have hn := handMix_next T 0 (by norm_num) hdiv'
    rw [tickFrom.eq_def]
    dsimp only
    simp only [wheelMix_hand, hn, hdig, setHand_levels, drainBucket_levels, wheelMix_levels]
    rw [drainBucket_cons_fire (by rw [wheelMix_bucket]; exact oneBkt_same 0 b i)
      (by rw [wheelMix_ents, Function.update_same])]
    rw [unlink_one _ e0 0 b i 0 f a rfl rfl]
    rw [drainBucket_of_empty _ 0 b rfl]
    have hstep : setHand
        { wheelMix T 0 (oneBkt 0 b i) (Function.update e0 i (Ent.mk 0 f a true)) lr lg with
          bucket := emptyBkt
          ents := Function.update e0 i (Ent.mk 0 f a false)
          log := (wheelMix T 0 (oneBkt 0 b i) (Function.update e0 i (Ent.mk 0 f a true)) lr lg).log
            ++ [Ev.fired i 0 b] } 0 b hb
        = wheelMix T 1 emptyBkt (Function.update e0 i (Ent.mk 0 f a false)) lr
            (lg ++ [Ev.fired i 0 b]) := by
      refine TW.ext' rfl ?_ rfl rfl rfl rfl
      rw [setHand_hand]
      show Function.update (handMix T 0) 0 b = handMix T 1
      rw [← hdig, handMix_step T 0 hdiv']
    rw [hstep]
    by_cases hb0 : b = 0
    · subst hb0
      rw [if_pos ⟨rfl, by norm_num⟩]
      have hdivA : (T + 1) % 256 = 0 := by omega
      exact tickFrom_above1 T _ _ lr _ hdivA rfl fun _ => rfl
    · rw [if_neg (by simp [hb0])]
      refine TW.ext' rfl ?_ rfl rfl rfl rfl
      rw [wheelMix_hand, handMix_stop T 0 (by norm_num) hdiv' (by rw [hdig]; exact hb0)]
  · -- fires while draining level 1
    norm_num at hcong
    have hdivA : (T + 1) % 256 = 0 := by omega
    have hdig : dig (T + 1) 1 = b := by rw [dig1_eq]; omega
    have hdiv' : (T + 1) % 256 ^ 1 = 0 := by rw [pow_one]; omega
    have hn := handMix_next T 1 (by norm_num) hdiv'
    rw [tickFrom_reach1 T _ _ lr lg hdivA (oneBkt_other 1 b i (by norm_num))]
    rw [tickFrom.eq_def]
    dsimp only
    simp only [wheelMix_hand, hn, hdig, setHand_levels, drainBucket_levels, wheelMix_levels]
    rw [drainBucket_cons_fire (by rw [wheelMix_bucket]; exact oneBkt_same 1 b i)
      (by rw [wheelMix_ents, Function.update_same])]
    rw [unlink_one _ e0 1 b i 0 f a rfl rfl]
    rw [drainBucket_of_empty _ 1 b rfl]
    have hstep : setHand
        { wheelMix T 1 (oneBkt 1 b i) (Function.update e0 i (Ent.mk 0 f a true)) lr lg with
          bucket := emptyBkt
          ents := Function.update e0 i (Ent.mk 0 f a false)
          log := (wheelMix T 1 (oneBkt 1 b i) (Function.update e0 i (Ent.mk 0 f a true)) lr lg).log
            ++ [Ev.fired i 1 b] } 1 b hb
        = wheelMix T 2 emptyBkt (Function.update e0 i (Ent.mk 0 f a false)) lr
            (lg ++ [Ev.fired i 1 b]) := by
      refine TW.ext' rfl ?_ rfl rfl rfl rfl
      rw [setHand_hand]
      show Function.update (handMix T 1) 1 b = handMix T 2
      rw [← hdig, handMix_step T 1 hdiv']
    rw [hstep]
    by_cases hb0 : b = 0
    · subst hb0
      rw [if_pos ⟨rfl, by norm_num⟩]
      have hdivB : (T + 1) % 65536 = 0 := by omega
      exact tickFrom_above2 T _ _ lr _ hdivB rfl
    · rw [if_neg (by simp [hb0])]
      refine TW.ext' rfl ?_ rfl rfl rfl rfl
      rw [wheelMix_hand, handMix_stop T 1 (by norm_num) hdiv' (by rw [hdig]; exact hb0)]
  · -- fires while draining level 2
    norm_num at hcong
    have hdivA : (T + 1) % 256 = 0 := by omega
    have hdivB : (T + 1) % 65536 = 0 := by omega
    have hdig : dig (T + 1) 2 = b := by rw [dig2_eq]; omega
    have hdiv' : (T + 1) % 256 ^ 2 = 0 := by norm_num; omega
    have hn := handMix_next T 2 (by norm_num) hdiv'
    rw [tickFrom_reach1 T _ _ lr lg hdivA (oneBkt_other 2 b i (by norm_num))]
    rw [tickFrom_reach2 T _ _ lr lg hdivB (oneBkt_other 2 b i (by norm_num))]
    rw [tickFrom.eq_def]
    dsimp only
    simp only [wheelMix_hand, hn, hdig, setHand_levels, drainBucket_levels, wheelMix_levels]
    rw [drainBucket_cons_fire (by rw [wheelMix_bucket]; exact oneBkt_same 2 b i)
      (by rw [wheelMix_ents, Function.update_same])]
    rw [unlink_one _ e0 2 b i 0 f a rfl rfl]
    rw [drainBucket_of_empty _ 2 b rfl]
    have hstep : setHand
        { wheelMix T 2 (oneBkt 2 b i) (Function.update e0 i (Ent.mk 0 f a true)) lr lg with
          bucket := emptyBkt
          ents := Function.update e0 i (Ent.mk 0 f a false)
          log := (wheelMix T 2 (oneBkt 2 b i) (Function.update e0 i (Ent.mk 0 f a true)) lr lg).log
            ++ [Ev.fired i 2 b] } 2 b hb
        = wheelMix T 3 emptyBkt (Function.update e0 i (Ent.mk 0 f a false)) lr
            (lg ++ [Ev.fired i 2 b]) := by
      refine TW.ext' rfl ?_ rfl rfl rfl rfl
      rw [setHand_hand]
      show Function.update (handMix T 2) 2 b = handMix T 3
      rw [← hdig, handMix_step T 2 hdiv']
    rw [hstep]
    rw [if_neg (by norm_num)]
    refine TW.ext' rfl ?_ rfl rfl rfl rfl
    rw [wheelMix_hand, handMix_three]

theorem wheelMix_log (T j : Nat) (bkt : Nat → Nat → List Nat) (e : Nat → Ent)
    (lr : Int) (lg : List Ev) : (wheelMix T j bkt e lr lg).log = lg := rfl

theorem unlink_mix (T j l b i rem f a : Nat) (e0 : Nat → Ent) (lr : Int)
    (lg : List Ev) :
    unlink (wheelMix T j (oneBkt l b i)
        (Function.update e0 i (Ent.mk rem f a true)) lr lg) i
      = wheelMix T j emptyBkt (Function.update e0 i (Ent.mk rem f a false)) lr lg := by
  rw [unlink_one _ e0 l b i rem f a rfl rfl]
  rfl

theorem start_mix (T j i f a r0 t : Nat) (e0 : Nat → Ent) (lr : Int)
    (lg : List Ev) :
    ttimer_start (wheelMix T j emptyBkt
        (Function.update e0 i (Ent.mk r0 f a false)) lr lg) i t
      = wheelMix T j
          (oneBkt (startLoop (handMix T j) 0 t 0 1).1
            (startLoop (handMix T j) 0 t 0 1).2.1 i)
          (Function.update e0 i
            (Ent.mk (startLoop (handMix T j) 0 t 0 1).2.2 f a true)) lr lg := by
  rw [ttimer_start_empty _ e0 i f a r0 t rfl rfl]
  rfl

theorem setHand_to_mix (w : TW) (j n T : Nat) (h : n < 256)
    (bkt : Nat → Nat → List Nat) (e : Nat → Ent) (lr : Int) (lg : List Ev)
    (hlv : w.levels = 3)
    (hh : Function.update w.hand j n = handMix T (j + 1))
    (hbkt : w.bucket = bkt) (hents : w.ents = e) (hlr : w.lastrun = lr)
    (hlg : w.log = lg) :
    setHand w j n h = wheelMix T (j + 1) bkt e lr lg := by
  refine TW.ext' ?_ ?_ ?_ ?_ ?_ ?_
  · rw [setHand_levels, hlv]
    rfl
  · rw [setHand_hand, hh]
    rfl
  · rw [setHand_bucket, hbkt]
    rfl
  · rw [setHand_ents, hents]
    rfl
  · rw [setHand_lastrun, hlr]
    rfl
  · rw [setHand_log, hlg]
    rfl

/-- One `ttimer_tick` that reaches the timer's bucket while its remaining
time is nonzero and within the level's span (`rem < 256 ^ l`): the reference
is popped and re-inserted by `ttimer_start` at a strictly lower level — at
level 0, bucket `rem` when `rem < 256`, else at level 1, bucket `rem / 256`
with remaining `rem % 256` — and its callback does not run in this tick. -/
theorem tick_recascade (T l b rem i f a : Nat) (e0 : Nat → Ent) (lr : Int)
    (lg : List Ev) (hl : l < 3) (hb : b < 256) (hreg : rem < 256 ^ l)
    (hrm : rem ≠ 0) (hdr : drainT T l b = T + 1) :
    ttimer_tick (loaded T l b rem i f a e0 lr lg)
      = loaded (T + 1) (if rem < 256 then 0 else 1)
          (if rem < 256 then rem else rem / 256)
          (if rem < 256 then 0 else rem % 256) i f a e0 lr
          (lg ++ [Ev.recascaded i l b rem (if rem < 256 then 0 else 1)
            (if rem < 256 then rem else rem / 256)
            (if rem < 256 then 0 else rem % 256)]) := by
  have hcong : (T + 1) % 256 ^ (l + 1) = b * 256 ^ l := hdr ▸ drainT_mod T l b hl hb
  unfold ttimer_tick
  rw [loaded_eq_mix]
  interval_cases l
  · -- level 0 holds no timer with nonzero remaining time
    norm_num at hreg
    omega
  · -- popped from level 1, re-inserted at level 0
    norm_num at hcong hreg
    rw [if_pos hreg, if_pos hreg, if_pos hreg]
    have hdivA : (T + 1) % 256 = 0 := by omega
    have hdig : dig (T + 1) 1 = b := by rw [dig1_eq]; omega
    have hdiv' : (T + 1) % 256 ^ 1 = 0 := by rw [pow_one]; omega
    have hn := handMix_next T 1 (by norm_num) hdiv'
    have hm0 : handMix T 1 0 = 0 := by
      simp only [handMix, if_pos (by norm_num : (0:Nat) < 1), dig0_eq]
      omega
    have hpl : startLoop (handMix T 1) 0 rem 0 1 = (0, rem, 0) := by
      rw [startLoop_stop _ 0 rem 0 1 (by rw [hm0]; omega), hm0]
      rw [Nat.zero_add, Nat.mod_eq_of_lt hreg]
    rw [tickFrom_reach1 T _ _ lr lg hdivA (oneBkt_other 1 b i (by norm_num))]
    rw [tickFrom.eq_def]
    dsimp only
    simp only [wheelMix_hand, hn, hdig, setHand_levels, drainBucket_levels, wheelMix_levels]
    rw [drainBucket_cons_recascade (by rw [wheelMix_bucket]; exact oneBkt_same 1 b i)
      (by rw [wheelMix_ents, Function.update_same]; exact hrm)]
    simp only [wheelMix_ents, Function.update_same]
    dsimp only
    simp only [unlink_mix, start_mix, wheelMix_hand, wheelMix_log, hpl]
    dsimp only
    rw [drainBucket_of_one_other _ 0 rem i rfl (by rintro ⟨h2, _⟩; exact absurd h2 (by norm_num))]
    rw [setHand_to_mix _ 1 b T hb (oneBkt 0 rem i)
      (Function.update e0 i (Ent.mk 0 f a true)) lr
      (lg ++ [Ev.recascaded i 1 b rem 0 rem 0]) rfl ?hh1 rfl rfl rfl rfl]
    case hh1 =>
      show Function.update (handMix T 1) 1 b = handMix T 2
      rw [← hdig, handMix_step T 1 hdiv']
    by_cases hb0 : b = 0
    · subst hb0
      rw [if_pos ⟨rfl, by norm_num⟩]
      have hdivB : (T + 1) % 65536 = 0 := by omega
      exact tickFrom_above2 T _ _ lr _ hdivB (oneBkt_other 0 rem i (by norm_num))
    · rw [if_neg (by simp [hb0])]
      refine TW.ext' rfl ?_ rfl rfl rfl rfl
      rw [wheelMix_hand, handMix_stop T 1 (by norm_num) hdiv' (by rw [hdig]; exact hb0)]
      rfl
  · -- popped from level 2, re-inserted at level 0 or 1
    norm_num at hcong hreg
    have hdivA : (T + 1) % 256 = 0 := by omega
    have hdivB : (T + 1) % 65536 = 0 := by omega
    have hdig : dig (T + 1) 2 = b := by rw [dig2_eq]; omega
    have hdiv' : (T + 1) % 256 ^ 2 = 0 := by norm_num; omega
    have hn := handMix_next T 2 (by norm_num) hdiv'
    have hm0 : handMix T 2 0 = 0 := by
      simp only [handMix, if_pos (by norm_num : (0:Nat) < 2), dig0_eq]
      omega
    have hm1 : handMix T 2 1 = 0 := by
      simp only [handMix, if_pos (by norm_num : (1:Nat) < 2), dig1_eq]
      omega
    have hpl : startLoop (handMix T 2) 0 rem 0 1
        = (if rem < 256 then 0 else 1, if rem < 256 then rem else rem / 256,
           if rem < 256 then 0 else rem % 256) := by
      by_cases h256 : rem < 256
      · rw [if_pos h256, if_pos h256, if_pos h256]
        rw [startLoop_stop _ 0 rem 0 1 (by rw [hm0]; omega), hm0]
        rw [Nat.zero_add, Nat.mod_eq_of_lt h256]
      · rw [if_neg h256, if_neg h256, if_neg h256]
        rw [startLoop_cascade _ 0 rem 0 1 (by rw [hm0]; omega) (by norm_num), hm0]
        simp only [Nat.zero_add, Nat.one_mul, Nat.mul_one]
        rw [startLoop_stop _ 1 _ _ _ (by rw [hm1]; omega), hm1]
        simp only [Nat.zero_add, Prod.mk.injEq]
        refine ⟨trivial, by omega, trivial⟩
    rw [tickFrom_reach1 T _ _ lr lg hdivA (oneBkt_other 2 b i (by norm_num))]
    rw [tickFrom_reach2 T _ _ lr lg hdivB (oneBkt_other 2 b i (by norm_num))]
    rw [tickFrom.eq_def]
    dsimp only
    simp only [wheelMix_hand, hn, hdig, setHand_levels, drainBucket_levels, wheelMix_levels]
    rw [drainBucket_cons_recascade (by rw [wheelMix_bucket]; exact oneBkt_same 2 b i)
      (by rw [wheelMix_ents, Function.update_same]; exact hrm)]
    simp only [wheelMix_ents, Function.update_same]
    dsimp only
    simp only [unlink_mix, start_mix, wheelMix_hand, wheelMix_log, hpl]
    dsimp only
    have hlv2 : (if rem < 256 then 0 else 1 : Nat) ≠ 2 := by
      split_ifs <;> omega
    rw [drainBucket_of_one_other _ _ _ i rfl ?hne2]
    case hne2 =>
      rintro ⟨h2, _⟩
      exact hlv2 h2.symm
    rw [setHand_to_mix _ 2 b T hb
      (oneBkt (if rem < 256 then 0 else 1) (if rem < 256 then rem else rem / 256) i)
      (Function.update e0 i (Ent.mk (if rem < 256 then 0 else rem % 256) f a true)) lr
      (lg ++ [Ev.recascaded i 2 b rem (if rem < 256 then 0 else 1)
        (if rem < 256 then rem else rem / 256) (if rem < 256 then 0 else rem % 256)])
      rfl ?hh2 rfl rfl rfl rfl]
    case hh2 =>
      show Function.update (handMix T 2) 2 b = handMix T 3
      rw [← hdig, handMix_step T 2 hdiv']
    rw [if_neg (by norm_num)]
    refine TW.ext' rfl ?_ rfl rfl rfl rfl
    rw [wheelMix_hand, handMix_three]
    rfl

/-- Iterated ticks up to (but not reaching) the drain time leave a loaded
wheel loaded, with only the global time advancing. -/
theorem tick_iter_no_touch (T l b rem i f a : Nat) (e0 : Nat → Ent) (lr : Int)
    (lg : List Ev) (hl : l < 3) (hb : b < 256) :
    ∀ k, T + k < drainT T l b →
      ttimer_tick^[k] (loaded T l b rem i f a e0 lr lg)
        = loaded (T + k) l b rem i f a e0 lr lg := by
  intro k
  induction k generalizing T with
  | zero => intro _; rfl
  | succ k ih =>
    intro hk
    have hstep : drainT T l b ≠ T + 1 := by omega
    have hdr := drainT_succ T l b hl hb hstep
    rw [Function.iterate_succ_apply, tick_no_touch T l b rem i f a e0 lr lg hl hb hstep]
    rw [ih (T + 1) (by omega)]
    congr 1
    omega

/-- The drain time of the re-inserted position: re-cascading preserves the
absolute deadline `drainT + remaining`. -/
theorem recascade_deadline (T l b rem : Nat) (hl : l < 3) (hb : b < 256)
    (hreg : rem < 256 ^ l) (hrm : rem ≠ 0) (hdr : drainT T l b = T + 1) :
    drainT (T + 1) (if rem < 256 then 0 else 1)
        (if rem < 256 then rem else rem / 256)
      + (if rem < 256 then 0 else rem % 256) = T + 1 + rem := by
  have hcong : (T + 1) % 256 ^ (l + 1) = b * 256 ^ l := hdr ▸ drainT_mod T l b hl hb
  have hl12 : l = 1 ∨ l = 2 := by
    interval_cases l
    · norm_num at hreg
      omega
    · exact Or.inl rfl
    · exact Or.inr rfl
  have hdiv : (T + 1) % 256 = 0 := by
    rcases hl12 with rfl | rfl <;> norm_num at hcong <;> omega
  by_cases h256 : rem < 256
  · rw [if_pos h256, if_pos h256, if_pos h256]
    have : drainT (T + 1) 0 rem = T + 1 + rem := by
      refine (drainT_char (T + 1) 0 rem _ (by norm_num) (by omega)).mpr ?_
      norm_num
      omega
    omega
  · rw [if_neg h256, if_neg h256, if_neg h256]
    have hl2 : l = 2 := by
      rcases hl12 with rfl | rfl
      · norm_num at hreg
        omega
      · rfl
    subst hl2
    norm_num at hcong hreg
    have hdiv2 : (T + 1) % 65536 = 0 := by omega
    have : drainT (T + 1) 1 (rem / 256) = T + 1 + 256 * (rem / 256) := by
      refine (drainT_char (T + 1) 1 (rem / 256) _ (by norm_num) (by omega)).mpr ?_
      norm_num
      omega
    omega

theorem drainT_add (T l b : Nat) (hl : l < 3) (hb : b < 256) :
    ∀ j, T + j < drainT T l b → drainT (T + j) l b = drainT T l b := by
  intro j
  induction j generalizing T with
  | zero => intro _; rfl
  | succ j ih =>
    intro hj
    have h1 : drainT T l b ≠ T + 1 := by omega
    have h2 := drainT_succ T l b hl hb h1
    have h3 : T + 1 + j < drainT (T + 1) l b := by omega
    have h4 := ih (T + 1) h3
    rw [show T + (j + 1) = T + 1 + j by omega, h4, h2]

theorem firedCount_rec_nil (i j l b rem lv bkt rem2 : Nat) :
    firedCount [Ev.recascaded j l b rem lv bkt rem2] i = 0 := by
  simp [firedCount, List.filter, isFireOf]

theorem firedCount_fired_self (i l b : Nat) :
    firedCount [Ev.fired i l b] i = 1 := by
  simp [firedCount, List.filter, isFireOf]

/-- Core exact-fire theorem: a single pending timer in a regular position
(`rem < 256 ^ l`) with absolute deadline `drainT T l b + rem = T + Δ` fires
during tick `Δ` and during no earlier tick, stays scheduled until then, and
is left unscheduled on an otherwise idle wheel. -/
theorem fire_exact_core :
    ∀ Δ T l b rem i f a (e0 : Nat → Ent) (lr : Int) (lg : List Ev),
      l < 3 → b < 256 → rem < 256 ^ l → drainT T l b + rem = T + Δ →
      (∀ k, k < Δ →
        firedCount ((ttimer_tick^[k] (loaded T l b rem i f a e0 lr lg)).log) i
            = firedCount lg i
          ∧ ((ttimer_tick^[k] (loaded T l b rem i f a e0 lr lg)).ents i).scheduled
            = true)
      ∧ ∃ lg2, ttimer_tick^[Δ] (loaded T l b rem i f a e0 lr lg)
            = idle (T + Δ) i f a e0 lr lg2
          ∧ firedCount lg2 i = firedCount lg i + 1 := by
  intro Δ
  induction Δ using Nat.strong_induction_on with
  | _ Δ ih =>
    intro T l b rem i f a e0 lr lg hl hb hreg hdl
    have hgt : T < drainT T l b := drainT_gt T l b hl hb
    by_cases hrm : rem = 0
    · subst hrm
      have hΔ : drainT T l b = T + Δ := by omega
      have hΔ1 : 1 ≤ Δ := by omega
      constructor
      · intro k hk
        rw [tick_iter_no_touch T l b 0 i f a e0 lr lg hl hb k (by omega)]
        refine ⟨rfl, ?_⟩
        rw [loaded_ents, Function.update_same]
      · refine ⟨lg ++ [Ev.fired i l b], ?_, ?_⟩
        · rw [show Δ = (Δ - 1) + 1 by omega, Function.iterate_succ_apply']
          rw [tick_iter_no_touch T l b 0 i f a e0 lr lg hl hb (Δ - 1) (by omega)]
          have hd2 : drainT (T + (Δ - 1)) l b = T + (Δ - 1) + 1 := by
            rw [drainT_add T l b hl hb (Δ - 1) (by omega)]
            omega
          rw [tick_fire (T + (Δ - 1)) l b i f a e0 lr lg hl hb hd2,
            show T + (Δ - 1) + 1 = T + Δ from by omega]
          try rw [show T + (Δ - 1 + 1) = T + Δ from by omega]
        · rw [firedCount_append, firedCount_fired_self]
    · -- recascades at the drain tick, then fires by induction
      have hd0 : drainT (T + (drainT T l b - T - 1)) l b
          = T + (drainT T l b - T - 1) + 1 := by
        rw [drainT_add T l b hl hb _ (by omega)]
        omega
      have htime : T + (drainT T l b - T - 1) + 1 = drainT T l b := by omega
      have hreach : ttimer_tick^[drainT T l b - T] (loaded T l b rem i f a e0 lr lg)
          = loaded (drainT T l b) (if rem < 256 then 0 else 1)
              (if rem < 256 then rem else rem / 256)
              (if rem < 256 then 0 else rem % 256) i f a e0 lr
              (lg ++ [Ev.recascaded i l b rem (if rem < 256 then 0 else 1)
                (if rem < 256 then rem else rem / 256)
                (if rem < 256 then 0 else rem % 256)]) := by
        rw [show drainT T l b - T = (drainT T l b - T - 1) + 1 by omega,
          Function.iterate_succ_apply']
        rw [tick_iter_no_touch T l b rem i f a e0 lr lg hl hb _ (by omega)]
        rw [tick_recascade _ l b rem i f a e0 lr lg hl hb hreg hrm hd0, htime]
      have hdl2 : drainT (drainT T l b) (if rem < 256 then 0 else 1)
            (if rem < 256 then rem else rem / 256)
          + (if rem < 256 then 0 else rem % 256)
          = drainT T l b + (Δ - (drainT T l b - T)) := by
        have hh := recascade_deadline (T + (drainT T l b - T - 1)) l b rem hl hb hreg hrm hd0
        rw [htime] at hh
        omega
      have hl' : (if rem < 256 then 0 else 1) < 3 := by split_ifs <;> norm_num
      have hb' : (if rem < 256 then rem else rem / 256) < 256 := by
        split_ifs with h256
        · exact h256
        · have hl2 : l = 2 := by
            interval_cases l
            · norm_num at hreg
              omega
            · norm_num at hreg
              omega
            · rfl
          subst hl2
          norm_num at hreg
          omega
      have hreg' : (if rem < 256 then 0 else rem % 256)
          < 256 ^ (if rem < 256 then 0 else 1) := by
        split_ifs <;> norm_num
        omega
      have hlt : Δ - (drainT T l b - T) < Δ := by omega
      obtain ⟨hA, lg2, hB, hC⟩ := ih _ hlt (drainT T l b)
        (if rem < 256 then 0 else 1) (if rem < 256 then rem else rem / 256)
        (if rem < 256 then 0 else rem % 256) i f a e0 lr
        (lg ++ [Ev.recascaded i l b rem (if rem < 256 then 0 else 1)
          (if rem < 256 then rem else rem / 256)
          (if rem < 256 then 0 else rem % 256)]) hl' hb' hreg' hdl2
      constructor
      · intro k hk
        by_cases hksm : k < drainT T l b - T
        · rw [tick_iter_no_touch T l b rem i f a e0 lr lg hl hb k (by omega)]
          refine ⟨rfl, ?_⟩
          rw [loaded_ents, Function.update_same]
        · rw [show k = (k - (drainT T l b - T)) + (drainT T l b - T) by omega,
            Function.iterate_add_apply, hreach]
          have hthis := hA (k - (drainT T l b - T)) (by omega)
          refine ⟨?_, hthis.2⟩
          rw [hthis.1, firedCount_append, firedCount_rec_nil]
          try omega
      · refine ⟨lg2, ?_, ?_⟩
        · rw [show Δ = (Δ - (drainT T l b - T)) + (drainT T l b - T) by omega,
            Function.iterate_add_apply, hreach, hB,
            show drainT T l b + (Δ - (drainT T l b - T)) = T + Δ from by omega]
          try rw [show T + (Δ - (drainT T l b - T) + (drainT T l b - T)) = T + Δ from by omega]
        · rw [hC, firedCount_append, firedCount_rec_nil]
          try omega

theorem wheelAt_hand (T : Nat) (bkt : Nat → Nat → List Nat) (e : Nat → Ent)
    (lr : Int) (lg : List Ev) : (wheelAt T bkt e lr lg).hand = restHand T := rfl

/-- Starting a positive timeout `t` on an otherwise empty 3-level wheel at
rest at `T`, with `T % 256³ + t` at most `256³ + 65535`, loads the wheel
with a regular placement whose absolute deadline is exactly `T + t`. -/
theorem start_place (T t i f a r0 : Nat) (e0 : Nat → Ent) (lr : Int)
    (lg : List Ev) (ht : 1 ≤ t)
    (hwin : T % 16777216 + t ≤ 16777216 + 65535) :
    ∃ l b rem,
      ttimer_start (wheelAt T emptyBkt
          (Function.update e0 i (Ent.mk r0 f a false)) lr lg) i t
        = loaded T l b rem i f a e0 lr lg
      ∧ l < 3 ∧ b < 256 ∧ rem < 256 ^ l ∧ drainT T l b + rem = T + t := by
  have hh0 := restHand0 T
  have hh1 := restHand1 T
  have hh2 := restHand2 T
  have hst : ttimer_start (wheelAt T emptyBkt
        (Function.update e0 i (Ent.mk r0 f a false)) lr lg) i t
      = loaded T (startLoop (restHand T) 0 t 0 1).1
          (startLoop (restHand T) 0 t 0 1).2.1
          (startLoop (restHand T) 0 t 0 1).2.2 i f a e0 lr lg := by
    rw [ttimer_start_empty _ e0 i f a r0 t rfl rfl]
    rfl
  have hsp := startLoop_spec (restHand T) t
  split_ifs at hsp with c0 c1 c2
  · -- placed at level 0
    refine ⟨0, (restHand T 0 + t) % 256, 0, ?_, by norm_num, by omega, by norm_num, ?_⟩
    · rw [hst, hsp]
    · have hD : drainT T 0 ((restHand T 0 + t) % 256) = T + t := by
        refine (drainT_char T 0 _ (T + t) (by norm_num) (by omega)).mpr ?_
        norm_num
        omega
      omega
  · -- placed at level 1
    refine ⟨1, (restHand T 1 + (restHand T 0 + t) / 256) % 256,
      (restHand T 0 + t) % 256, ?_, by norm_num, by omega, by norm_num; omega, ?_⟩
    · rw [hst, hsp]
    · have hD : drainT T 1 ((restHand T 1 + (restHand T 0 + t) / 256) % 256)
          = T + t - (restHand T 0 + t) % 256 := by
        refine (drainT_char T 1 _ _ (by norm_num) (by omega)).mpr ?_
        norm_num
        omega
      omega
  · -- placed at level 2
    refine ⟨2, (restHand T 2 + (restHand T 1 + (restHand T 0 + t) / 256) / 256) % 256,
      (restHand T 0 + t) % 256
        + (restHand T 1 + (restHand T 0 + t) / 256) % 256 * 256, ?_,
      by norm_num, by omega, by norm_num; omega, ?_⟩
    · rw [hst, hsp]
    · have hD : drainT T 2
          ((restHand T 2 + (restHand T 1 + (restHand T 0 + t) / 256) / 256) % 256)
          = T + t - ((restHand T 0 + t) % 256
              + (restHand T 1 + (restHand T 0 + t) / 256) % 256 * 256) := by
        refine (drainT_char T 2 _ _ (by norm_num) (by omega)).mpr ?_
        norm_num
        omega
      omega
  · -- clamped at the top level
    have hr2 : (restHand T 2 + (restHand T 1 + (restHand T 0 + t) / 256) / 256) % 256 = 0
        ∧ (restHand T 2 + (restHand T 1 + (restHand T 0 + t) / 256) / 256) / 256 = 1 := by
      omega
    refine ⟨2, 0,
      (restHand T 0 + t) % 256
        + (restHand T 1 + (restHand T 0 + t) / 256) % 256 * 256
        + (restHand T 2 + (restHand T 1 + (restHand T 0 + t) / 256) / 256) % 256 * 65536
        + 16777216 * ((restHand T 2 + (restHand T 1 + (restHand T 0 + t) / 256) / 256) / 256 - 1),
      ?_, by norm_num, by norm_num, by norm_num; omega, ?_⟩
    · rw [hst, hsp, hr2.1]
    · have hD : drainT T 2 0 = T - T % 16777216 + 16777216 := by
        refine (drainT_char T 2 0 _ (by norm_num) (by norm_num)).mpr ?_
        norm_num
        omega
      omega

/- ## Exported results: sizing, non-advancing run, start level bounds -/

/-- Digit-count characterisation of the sizing loop: on positive input it
computes `⌊log₂₅₆ m⌋ + 1`. -/
theorem levelsFor_eq : ∀ m : Nat, m ≠ 0 → levelsFor m = Nat.log 256 m + 1 := by
  intro m
  induction m using Nat.strong_induction_on with
  | _ m ih =>
    intro hm
    rw [levelsFor, if_neg hm]
    by_cases h : m < 256
    · rw [Nat.div_eq_of_lt h, levelsFor, if_pos rfl,
        Nat.log_eq_zero_iff.mpr (Or.inl h)]
    · rw [ih (m / 256) (by omega) (by omega), Nat.log_div_base]
      have hpos : 0 < Nat.log 256 m := Nat.log_pos (by norm_num) (by omega)
      omega

theorem levelsFor_zero : levelsFor 0 = 0 := by
  rw [levelsFor]
  norm_num

/-- C2: calling `ttimer_run_ticks` with `now` not after the stored `lastrun`
runs no tick and leaves every field but `lastrun` unchanged — but it is not a
complete no-op: the code stores `now` into `lastrun` unconditionally, so a
`now` strictly before `lastrun` rewinds the stored time. -/
theorem run_ticks_nonadvancing (w : TW) (now : Int) (h : now ≤ w.lastrun) :
    ttimer_run_ticks w now = { w with lastrun := now } := by
  rw [ttimer_run_ticks, if_neg (by omega)]

theorem run_ticks_nonadvancing_witness :
    (3 : Int) ≤ (ttimer_create 100 5).lastrun
      ∧ ttimer_run_ticks (ttimer_create 100 5) 3
          = { ttimer_create 100 5 with lastrun := 3 } :=
  ⟨by norm_num [ttimer_create],
    run_ticks_nonadvancing (ttimer_create 100 5) 3 (by norm_num [ttimer_create])⟩

/-- Calling `ttimer_run_ticks` with `now = 3` on a wheel whose stored time is
5 changes the wheel state: the stored time is rewound to 3, so a
non-advancing call is not a no-op. -/
theorem run_ticks_rewind_counterexample :
    (ttimer_run_ticks (ttimer_create 100 5) 3).lastrun
      ≠ (ttimer_create 100 5).lastrun := by
  rw [ttimer_run_ticks, if_neg (by norm_num [ttimer_create])]
  norm_num [ttimer_create]

theorem create_hand_100 : (ttimer_create 100 0).hand = fun _ => 0 := rfl

/-- A wheel sized for `maxtimeout = 100` allocates one level, yet starting a
timeout of 257 walks the placement cascade to level 1 — the loop is bounded
by `WHEEL_MAX_LEVELS = 3`, not by the wheel's own `levels` — and links the
reference into a bucket of a level the wheel never allocated nor drains. -/
theorem start_oob_counterexample :
    (ttimer_create 100 0).levels = 1
      ∧ (ttimer_start (ttimer_create 100 0) 0 257).bucket 1 1 = [0] := by
  have hl100 : levelsFor 100 = 1 := by
    rw [levelsFor_eq 100 (by norm_num),
      Nat.log_eq_zero_iff.mpr (Or.inl (by norm_num : (100 : Nat) < 256))]
  constructor
  · show (if levelsFor (Int.toNat 100) = 0 then 3
          else min (levelsFor (Int.toNat 100)) 3) = 1
    rw [show Int.toNat 100 = 100 from rfl, hl100]
    norm_num
  · have hp : startLoop (ttimer_create 100 0).hand 0 257 0 1 = (1, 1, 1) := by
      rw [create_hand_100]
      rw [startLoop_cascade _ 0 257 0 1 (by norm_num) (by norm_num)]
      rw [startLoop_stop _ 1 _ _ _ (by norm_num)]
    simp only [ttimer_start]
    rw [hp]
    simp [ttimer_create]

/-- C3: amended level bound — the placement loop of `ttimer_start` keeps its
level index below `WHEEL_MAX_LEVELS = 3` and leaves buckets of levels `≥ 3`
untouched; the bound is the compile-time maximum, not the wheel's own
`levels`, so a wheel sized below 3 levels can be written out of its allocated
range (see the counterexample). -/
theorem start_level_bound (w : TW) (i t l b : Nat) (hl : 3 ≤ l) :
    (startLoop w.hand 0 t 0 1).1 < 3
      ∧ (ttimer_start w i t).bucket l b = w.bucket l b := by
  refine ⟨startLoop_level_lt w.hand t, ?_⟩
  have hne : l ≠ (startLoop w.hand 0 t 0 1).1 := by
    have := startLoop_level_lt w.hand t
    omega
  simp only [ttimer_start]
  rw [Function.update_noteq hne]

theorem start_level_bound_witness :
    3 ≤ 3 ∧ ((startLoop (ttimer_create 100 0).hand 0 257 0 1).1 < 3
      ∧ (ttimer_start (ttimer_create 100 0) 0 257).bucket 3 0
          = (ttimer_create 100 0).bucket 3 0) :=
  ⟨by norm_num, start_level_bound (ttimer_create 100 0) 0 257 3 0 (by norm_num)⟩

/-- The spec's sizing formula, `ceil(log₂₅₆ maxtimeout)` clamped to the
interval `[1, 3]`, written from the spec's words for comparison with the
code's digit count. -/
def spec_levels (m : Nat) : Nat := min (max (Nat.clog 256 m) 1) 3

/-- At `maxtimeout = 256` the code sizes two levels (the loop counts base-256
digits, `⌊log₂₅₆ m⌋ + 1`), while the spec's formula `ceil(log₂₅₆ 256) = 1`
clamped to `[1, 3]` sizes one. -/
theorem create_levels_counterexample :
    (ttimer_create 256 0).levels = 2 ∧ spec_levels 256 = 1 := by
  have hlog : Nat.log 256 256 = 1 := Nat.log_eq_one_iff'.mpr ⟨by norm_num, by norm_num⟩
  have hclog : Nat.clog 256 256 = 1 := Nat.clog_eq_one (by norm_num) (by norm_num)
  have hl256 : levelsFor 256 = 2 := by rw [levelsFor_eq 256 (by norm_num), hlog]
  constructor
  · show (if levelsFor (Int.toNat 256) = 0 then 3
          else min (levelsFor (Int.toNat 256)) 3) = 2
    rw [show Int.toNat 256 = 256 from rfl, hl256]
    norm_num
  · simp [spec_levels, hclog]

/-- C5: amended sizing — `ttimer_create` allocates `min(⌊log₂₅₆ m⌋ + 1, 3)`
levels for positive `maxtimeout` `m` (the number of base-256 digits, clamped
above by `WHEEL_MAX_LEVELS = 3`) and 3 levels when `m ≤ 0`; this equals the
spec's `ceil(log₂₅₆ m)` clamp except at exact powers of 256, where one extra
level is allocated. -/
theorem create_levels_formula (m now : Int) :
    (ttimer_create m now).levels
      = if m ≤ 0 then 3 else min (Nat.log 256 m.toNat + 1) 3 := by
  show (if levelsFor m.toNat = 0 then 3 else min (levelsFor m.toNat) 3) = _
  by_cases hm : m ≤ 0
  · have h0 : m.toNat = 0 := by omega
    rw [h0, levelsFor_zero, if_pos rfl, if_pos hm]
  · have h0 : m.toNat ≠ 0 := by omega
    rw [levelsFor_eq m.toNat h0,
      if_neg (by omega : ¬Nat.log 256 m.toNat + 1 = 0), if_neg hm]

/-- C10: the measures that make one `ttimer_tick` call terminate — the
placement cascade of a re-inserted reference stays below
`WHEEL_MAX_LEVELS = 3`, and the remaining time it is re-inserted with is
strictly below the nonzero remaining time it was drained with (the
decreasing measure of the bucket-drain loop, and the reason no reference is
re-processed unboundedly within one tick). -/
theorem tick_rem_decreases (w : TW) (m : Nat) (hm : m ≠ 0) :
    (startLoop w.hand 0 m 0 1).1 < 3 ∧ (startLoop w.hand 0 m 0 1).2.2 < m :=
  ⟨startLoop_level_lt w.hand m,
    startLoop_rem_lt w.hand w.hand_lt m (Nat.one_le_iff_ne_zero.mpr hm)⟩

theorem tick_rem_decreases_witness :
    (5 : Nat) ≠ 0
      ∧ ((startLoop (ttimer_create 100 0).hand 0 5 0 1).1 < 3
        ∧ (startLoop (ttimer_create 100 0).hand 0 5 0 1).2.2 < 5) :=
  ⟨by norm_num, tick_rem_decreases (ttimer_create 100 0) 5 (by norm_num)⟩

/- ## Commuting the stored time through a tick (for `ttimer_run_ticks`) -/

/-- Store `x` as the wheel's last-processed time. -/
def setLastrun (w : TW) (x : Int) : TW := { w with lastrun := x }

theorem setLastrun_hand (w : TW) (x : Int) : (setLastrun w x).hand = w.hand := rfl

theorem setLastrun_bucket (w : TW) (x : Int) :
    (setLastrun w x).bucket = w.bucket := rfl

theorem setLastrun_ents (w : TW) (x : Int) : (setLastrun w x).ents = w.ents := rfl

theorem setLastrun_log (w : TW) (x : Int) : (setLastrun w x).log = w.log := rfl

theorem setLastrun_levels (w : TW) (x : Int) :
    (setLastrun w x).levels = w.levels := rfl

theorem setLastrun_lastrun (w : TW) (x : Int) : (setLastrun w x).lastrun = x := rfl

theorem setLastrun_setLastrun (w : TW) (u v : Int) :
    setLastrun (setLastrun w u) v = setLastrun w v := rfl

theorem setHand_setLastrun (x : Int) (w : TW) (level n : Nat) (h : n < 256) :
    setHand (setLastrun w x) level n h
      = setLastrun (setHand w level n h) x := rfl

theorem drainBucket_setLastrun (x : Int) (w : TW) (level n : Nat) :
    drainBucket (setLastrun w x) level n
      = setLastrun (drainBucket w level n) x := by
  induction w, level, n using drainBucket.induct with
  | case1 w level n hb =>
    have hb' : (setLastrun w x).bucket level n = [] := hb
    rw [drainBucket_nil hb', drainBucket_nil hb]
  | case2 w level n id tl hb hr ih =>
    have hb' : (setLastrun w x).bucket level n = id :: tl := hb
    have hr' : ((setLastrun w x).ents id).remaining ≠ 0 := hr
    rw [drainBucket_cons_recascade hb hr, drainBucket_cons_recascade hb' hr']
    exact ih
  | case3 w level n id tl hb hr ih =>
    have hb' : (setLastrun w x).bucket level n = id :: tl := hb
    have hr0 : (w.ents id).remaining = 0 := by simpa using hr
    have hr' : ((setLastrun w x).ents id).remaining = 0 := hr0
    rw [drainBucket_cons_fire hb hr0, drainBucket_cons_fire hb' hr']
    exact ih

theorem tickFrom_setLastrun (x : Int) (w : TW) (level : Nat) :
    tickFrom (setLastrun w x) level = setLastrun (tickFrom w level) x := by
  induction w, level using tickFrom.induct with
  | case1 w level n w2 hcond ih =>
    unfold_let n w2 at hcond
    simp only [setHand_levels, drainBucket_levels] at hcond
    rw [tickFrom.eq_def w level, tickFrom.eq_def (setLastrun w x) level]
    dsimp only
    simp only [setLastrun_hand, setLastrun_levels, drainBucket_setLastrun,
      setHand_setLastrun, setLastrun_lastrun, setHand_levels, drainBucket_levels]
    simp only [if_pos hcond]
    exact ih
  | case2 w level n w2 hcond =>
    unfold_let n w2 at hcond
    simp only [setHand_levels, drainBucket_levels] at hcond
    rw [tickFrom.eq_def w level, tickFrom.eq_def (setLastrun w x) level]
    dsimp only
    simp only [setLastrun_hand, setLastrun_levels, drainBucket_setLastrun,
      setHand_setLastrun, setLastrun_lastrun, setHand_levels, drainBucket_levels]
    simp only [if_neg hcond]

theorem ttimer_tick_setLastrun (x : Int) (w : TW) :
    ttimer_tick (setLastrun w x) = setLastrun (ttimer_tick w) x :=
  tickFrom_setLastrun x w 0

theorem tick_iterate_setLastrun (x : Int) (k : Nat) (w : TW) :
    ttimer_tick^[k] (setLastrun w x) = setLastrun (ttimer_tick^[k] w) x := by
  induction k generalizing w with
  | zero => rfl
  | succ k ih =>
    rw [Function.iterate_succ_apply, Function.iterate_succ_apply,
      ttimer_tick_setLastrun, ih]

/-- C7: advancing by `k` whole ticks is `ttimer_tick` iterated `k` times —
`ttimer_run_ticks` called with `now = lastrun + k` yields exactly the state
of `k` successive ticks (same buckets, hands, references and event log, so
the same callback firings in the same order), with the stored last-processed
time then equal to `now`. -/
theorem run_ticks_eq_iterate (w : TW) (k : Nat) :
    ttimer_run_ticks w (w.lastrun + (k : Int))
      = setLastrun (ttimer_tick^[k] w) (w.lastrun + (k : Int)) := by
  induction k generalizing w with
  | zero =>
    rw [ttimer_run_ticks, if_neg (by push_cast; omega)]
    rfl
  | succ k ih =>
    rw [ttimer_run_ticks, if_pos (by push_cast; omega)]
    show ttimer_run_ticks (setLastrun (ttimer_tick w) (w.lastrun + 1))
        (w.lastrun + ((k + 1 : Nat) : Int))
      = setLastrun (ttimer_tick^[k + 1] w) (w.lastrun + ((k + 1 : Nat) : Int))
    rw [show w.lastrun + ((k + 1 : Nat) : Int)
        = (setLastrun (ttimer_tick w) (w.lastrun + 1)).lastrun + (k : Int) from by
      rw [setLastrun_lastrun]
      push_cast
      ring]
    rw [ih, tick_iterate_setLastrun, setLastrun_setLastrun, setLastrun_lastrun,
      ← Function.iterate_succ_apply]

/- ## Ticks on an empty wheel -/

/-- A tick on a 3-level wheel at rest with no pending reference only advances
the hands. -/
theorem tick_empty (T : Nat) (e : Nat → Ent) (lr : Int) (lg : List Ev) :
    ttimer_tick (wheelAt T emptyBkt e lr lg)
      = wheelAt (T + 1) emptyBkt e lr lg := by
  unfold ttimer_tick
  rw [← wheelMix_zero T emptyBkt e lr lg]
  exact tickFrom_above0 T emptyBkt e lr lg rfl (fun _ => rfl) (fun _ => rfl)

theorem tick_iter_empty (T : Nat) (e : Nat → Ent) (lr : Int) (lg : List Ev) :
    ∀ k, ttimer_tick^[k] (wheelAt T emptyBkt e lr lg)
      = wheelAt (T + k) emptyBkt e lr lg := by
  intro k
  induction k generalizing T with
  | zero => rfl
  | succ k ih =>
    rw [Function.iterate_succ_apply, tick_empty, ih]
    rw [show T + 1 + k = T + (k + 1) from by omega]

/-- C6: `ttimer_stop` is idempotent cancellation.  On the scheduled pending
reference of a loaded wheel it unlinks it from its bucket, marks it
unscheduled, reports `true`, and however many ticks follow, the reference's
callback never fires (the fired count of its ghost log stays put).  On a
reference whose `scheduled` flag is false it reports `false` and returns the
wheel unchanged. -/
theorem stop_semantics (T l b rem i f a : Nat) (e0 : Nat → Ent) (lr : Int)
    (lg : List Ev) (w : TW) (j : Nat) (hj : (w.ents j).scheduled = false) :
    (ttimer_stop (loaded T l b rem i f a e0 lr lg) i
        = (true, wheelAt T emptyBkt
            (Function.update e0 i (Ent.mk rem f a false)) lr lg)
      ∧ ∀ k, firedCount ((ttimer_tick^[k]
            (ttimer_stop (loaded T l b rem i f a e0 lr lg) i).2).log) i
          = firedCount lg i)
    ∧ ttimer_stop w j = (false, w) := by
  have hsched : ((loaded T l b rem i f a e0 lr lg).ents i).scheduled = true := by
    show ((Function.update e0 i (Ent.mk rem f a true)) i).scheduled = true
    rw [Function.update_same]
  have hstop : ttimer_stop (loaded T l b rem i f a e0 lr lg) i
      = (true, wheelAt T emptyBkt
          (Function.update e0 i (Ent.mk rem f a false)) lr lg) := by
    unfold ttimer_stop
    rw [if_pos hsched, unlink_one _ e0 l b i rem f a rfl rfl]
    rfl
  refine ⟨⟨hstop, ?_⟩, ?_⟩
  · intro k
    rw [hstop]
    show firedCount ((ttimer_tick^[k] (wheelAt T emptyBkt
      (Function.update e0 i (Ent.mk rem f a false)) lr lg)).log) i = firedCount lg i
    rw [tick_iter_empty]
    rfl
  · unfold ttimer_stop
    rw [if_neg (by rw [hj]; exact Bool.false_ne_true)]

theorem stop_semantics_witness :
    ((ttimer_create 100 0).ents 0).scheduled = false
      ∧ ((ttimer_stop (loaded 0 0 5 0 0 1 0 (fun _ => Ent.mk 0 0 0 false) 0 []) 0
            = (true, wheelAt 0 emptyBkt
                (Function.update (fun _ => Ent.mk 0 0 0 false) 0
                  (Ent.mk 0 1 0 false)) 0 [])
          ∧ ∀ k, firedCount ((ttimer_tick^[k]
                (ttimer_stop (loaded 0 0 5 0 0 1 0
                  (fun _ => Ent.mk 0 0 0 false) 0 []) 0).2).log) 0
              = firedCount [] 0)
        ∧ ttimer_stop (ttimer_create 100 0) 0 = (false, ttimer_create 100 0)) :=
  ⟨rfl, stop_semantics 0 0 5 0 0 1 0 (fun _ => Ent.mk 0 0 0 false) 0 []
    (ttimer_create 100 0) 0 rfl⟩

/- ## One-level wheels -/

/-- The hands of a one-level wheel: only hand 0 ever moves. -/
def hand1 (h0 : Nat) : Nat → Nat := fun l => if l = 0 then h0 % 256 else 0

theorem hand1_lt (h0 : Nat) : ∀ l, hand1 h0 l < 256 := by
  intro l
  unfold hand1
  split
  · exact Nat.mod_lt _ (by norm_num)
  · norm_num

/-- A wheel created with one allocated level (`maxtimeout < 256`), after `h0`
ticks. -/
def wheel1 (h0 : Nat) (bkt : Nat → Nat → List Nat) (e : Nat → Ent) (lr : Int)
    (lg : List Ev) : TW :=
  ⟨1, hand1 h0, hand1_lt h0, bkt, e, lr, lg⟩

theorem wheel1_hand (h0 : Nat) (bkt : Nat → Nat → List Nat) (e : Nat → Ent)
    (lr : Int) (lg : List Ev) : (wheel1 h0 bkt e lr lg).hand = hand1 h0 := rfl

theorem wheel1_levels (h0 : Nat) (bkt : Nat → Nat → List Nat) (e : Nat → Ent)
    (lr : Int) (lg : List Ev) : (wheel1 h0 bkt e lr lg).levels = 1 := rfl

/-- A tick on a one-level wheel whose probed bucket is empty: only hand 0
advances; the cascade never proceeds to level 1 because `levels = 1`. -/
theorem tick_wheel1 (h0 : Nat) (bkt : Nat → Nat → List Nat) (e : Nat → Ent)
    (lr : Int) (lg : List Ev) (hemp : bkt 0 ((h0 + 1) % 256) = []) :
    ttimer_tick (wheel1 h0 bkt e lr lg) = wheel1 (h0 + 1) bkt e lr lg := by
  have hn : (hand1 h0 0 + 1) % 256 = (h0 + 1) % 256 := by
    show (h0 % 256 + 1) % 256 = (h0 + 1) % 256
    omega
  have hbd : (wheel1 h0 bkt e lr lg).bucket 0 ((h0 + 1) % 256) = [] := hemp
  have hd : drainBucket (wheel1 h0 bkt e lr lg) 0 ((h0 + 1) % 256)
      = wheel1 h0 bkt e lr lg := drainBucket_nil hbd
  unfold ttimer_tick
  rw [tickFrom.eq_def]
  dsimp only
  simp only [wheel1_hand, hn, hd, setHand_levels, wheel1_levels]
  rw [if_neg (by rintro ⟨-, hlt⟩; omega)]
  refine TW.ext' rfl ?_ rfl rfl rfl rfl
  rw [setHand_hand, wheel1_hand]
  funext l
  rcases eq_or_ne l 0 with rfl | hne
  · rw [Function.update_same]
    show (h0 + 1) % 256 = hand1 (h0 + 1) 0
    unfold hand1
    norm_num
  · rw [Function.update_noteq hne]
    show hand1 h0 l = hand1 (h0 + 1) l
    unfold hand1
    rw [if_neg hne, if_neg hne]

theorem tick_iter_wheel1_empty (h0 : Nat) (e : Nat → Ent) (lr : Int)
    (lg : List Ev) :
    ∀ k, ttimer_tick^[k] (wheel1 h0 emptyBkt e lr lg)
      = wheel1 (h0 + k) emptyBkt e lr lg := by
  intro k
  induction k generalizing h0 with
  | zero => rfl
  | succ k ih =>
    rw [Function.iterate_succ_apply, tick_wheel1 h0 emptyBkt e lr lg rfl, ih]
    rw [show h0 + 1 + k = h0 + (k + 1) from by omega]

theorem tick_iter_wheel1_stuck (h0 i : Nat) (e : Nat → Ent) (lr : Int)
    (lg : List Ev) :
    ∀ k, ttimer_tick^[k] (wheel1 h0 (oneBkt 1 1 i) e lr lg)
      = wheel1 (h0 + k) (oneBkt 1 1 i) e lr lg := by
  intro k
  induction k generalizing h0 with
  | zero => rfl
  | succ k ih =>
    rw [Function.iterate_succ_apply,
      tick_wheel1 h0 (oneBkt 1 1 i) e lr lg (oneBkt_other 1 1 i (by norm_num)),
      ih]
    rw [show h0 + 1 + k = h0 + (k + 1) from by omega]

theorem create_100_eq_wheel1 :
    ttimer_create 100 0 = wheel1 0 emptyBkt (fun _ => Ent.mk 0 0 0 false) 0 [] := by
  have hl100 : levelsFor 100 = 1 := by
    rw [levelsFor_eq 100 (by norm_num),
      Nat.log_eq_zero_iff.mpr (Or.inl (by norm_num : (100 : Nat) < 256))]
  refine TW.ext' ?_ ?_ rfl rfl rfl rfl
  · show (if levelsFor (Int.toNat 100) = 0 then 3
          else min (levelsFor (Int.toNat 100)) 3) = 1
    rw [show Int.toNat 100 = 100 from rfl, hl100]
    norm_num
  · funext l
    show (0 : Nat) = hand1 0 l
    unfold hand1
    split <;> norm_num

/-- On a wheel sized to one level, a timer whose timeout is within the
wheel's representable span never fires at all: after 200 warm-up ticks the
level-0 hand is at 200, so starting a timeout of 100 wraps past the bucket
count and the placement cascade files the reference under level 1 — a level
the one-level wheel's tick never drains.  100 ticks later (and at any later
tick) the callback has not run and the reference still reports scheduled. -/
theorem small_wheel_never_fires_counterexample :
    (ttimer_create 100 0).levels = 1
      ∧ firedCount ((ttimer_tick^[100] (ttimer_start (ttimer_tick^[200]
          (ttimer_setfunc (ttimer_create 100 0) 0 7 9)) 0 100)).log) 0 = 0
      ∧ ((ttimer_tick^[100] (ttimer_start (ttimer_tick^[200]
          (ttimer_setfunc (ttimer_create 100 0) 0 7 9)) 0 100)).ents 0).scheduled
        = true := by
  have hsf : ttimer_setfunc (ttimer_create 100 0) 0 7 9
      = wheel1 0 emptyBkt (Function.update (fun _ => Ent.mk 0 0 0 false) 0
          (Ent.mk 0 7 9 false)) 0 [] := by
    rw [create_100_eq_wheel1]
    rfl
  have h200 : ttimer_tick^[200] (ttimer_setfunc (ttimer_create 100 0) 0 7 9)
      = wheel1 200 emptyBkt (Function.update (fun _ => Ent.mk 0 0 0 false) 0
          (Ent.mk 0 7 9 false)) 0 [] := by
    rw [hsf, tick_iter_wheel1_empty]
  have hp : startLoop (hand1 200) 0 100 0 1 = (1, 1, 44) := by
    rw [startLoop_cascade _ 0 100 0 1 (by unfold hand1; norm_num) (by norm_num)]
    rw [startLoop_stop _ 1 _ _ _ (by unfold hand1; norm_num)]
    unfold hand1
    norm_num
  have hst : ttimer_start (ttimer_tick^[200]
        (ttimer_setfunc (ttimer_create 100 0) 0 7 9)) 0 100
      = wheel1 200 (oneBkt 1 1 0)
          (Function.update (fun _ => Ent.mk 0 0 0 false) 0
            (Ent.mk 44 7 9 true)) 0 [] := by
    rw [h200]
    rw [ttimer_start_empty _ (fun _ => Ent.mk 0 0 0 false) 0 7 9 0 100 rfl rfl]
    have hp' : startLoop (wheel1 200 emptyBkt
        (Function.update (fun _ => Ent.mk 0 0 0 false) 0
          (Ent.mk 0 7 9 false)) 0 []).hand 0 100 0 1 = (1, 1, 44) := hp
    rw [hp']
    rfl
  have hfin := tick_iter_wheel1_stuck 200 0
    (Function.update (fun _ => Ent.mk 0 0 0 false) 0 (Ent.mk 44 7 9 true)) 0 [] 100
  refine ⟨by rw [create_100_eq_wheel1]; rfl, ?_, ?_⟩
  · rw [hst, hfin]
    rfl
  · rw [hst, hfin]
    show ((Function.update (fun _ => Ent.mk 0 0 0 false) 0
      (Ent.mk 44 7 9 true)) 0).scheduled = true
    rw [Function.update_same]

/-- C1: amended exact-fire law.  On a full 3-level wheel at rest at global
tick `T` with no other pending reference, starting a positive timeout `t`
with `T % 256³ + t ≤ 256³ + 65535` and ticking: the callback does not run
and the reference stays scheduled on every tick before the `t`-th, and the
`t`-th tick fires it exactly once, leaving it unscheduled.  (The window
hypothesis always holds for `t ≤ 65535`; the original claim's bound — any
wheel whose levels cover the timeout — is refuted by the one-level-wheel
counterexample, where the timer never fires at all.) -/
theorem start_fires_exactly (T t i f a r0 : Nat) (e0 : Nat → Ent) (lr : Int)
    (lg : List Ev) (ht : 1 ≤ t) (hwin : T % 16777216 + t ≤ 16777216 + 65535) :
    (∀ k, k < t →
      firedCount ((ttimer_tick^[k] (ttimer_start (wheelAt T emptyBkt
          (Function.update e0 i (Ent.mk r0 f a false)) lr lg) i t)).log) i
        = firedCount lg i
      ∧ ((ttimer_tick^[k] (ttimer_start (wheelAt T emptyBkt
          (Function.update e0 i (Ent.mk r0 f a false)) lr lg) i t)).ents i).scheduled
        = true)
    ∧ ∃ lg2, ttimer_tick^[t] (ttimer_start (wheelAt T emptyBkt
          (Function.update e0 i (Ent.mk r0 f a false)) lr lg) i t)
        = idle (T + t) i f a e0 lr lg2
      ∧ firedCount lg2 i = firedCount lg i + 1 := by
  obtain ⟨l, b, rem, hstart, hl, hb, hreg, hdl⟩ :=
    start_place T t i f a r0 e0 lr lg ht hwin
  rw [hstart]
  exact fire_exact_core t T l b rem i f a e0 lr lg hl hb hreg hdl

theorem start_fires_exactly_witness :
    1 ≤ 3 ∧ 0 % 16777216 + 3 ≤ 16777216 + 65535
      ∧ ((∀ k, k < 3 →
          firedCount ((ttimer_tick^[k] (ttimer_start (wheelAt 0 emptyBkt
              (Function.update (fun _ => Ent.mk 0 0 0 false) 0
                (Ent.mk 0 1 0 false)) 0 []) 0 3)).log) 0
            = firedCount [] 0
          ∧ ((ttimer_tick^[k] (ttimer_start (wheelAt 0 emptyBkt
              (Function.update (fun _ => Ent.mk 0 0 0 false) 0
                (Ent.mk 0 1 0 false)) 0 []) 0 3)).ents 0).scheduled = true)
        ∧ ∃ lg2, ttimer_tick^[3] (ttimer_start (wheelAt 0 emptyBkt
              (Function.update (fun _ => Ent.mk 0 0 0 false) 0
                (Ent.mk 0 1 0 false)) 0 []) 0 3)
            = idle (0 + 3) 0 1 0 (fun _ => Ent.mk 0 0 0 false) 0 lg2
          ∧ firedCount lg2 0 = firedCount [] 0 + 1) :=
  ⟨by norm_num, by norm_num,
    start_fires_exactly 0 3 0 1 0 0 (fun _ => Ent.mk 0 0 0 false) 0 []
      (by norm_num) (by norm_num)⟩

/- ## The fresh full-size wheel and the clamp path -/

theorem create_big_eq_wheelAt (now : Int) :
    ttimer_create 16777216 now
      = wheelAt 0 emptyBkt (fun _ => Ent.mk 0 0 0 false) now [] := by
  have hpow : (256 : Nat) ^ 3 = 16777216 := by norm_num
  have hlog : Nat.log 256 16777216 = 3 := by
    rw [← hpow]
    exact Nat.log_pow (by norm_num) 3
  refine TW.ext' ?_ ?_ rfl rfl rfl rfl
  · show (if levelsFor (Int.toNat 16777216) = 0 then 3
          else min (levelsFor (Int.toNat 16777216)) 3) = 3
    rw [show Int.toNat 16777216 = 16777216 from rfl,
      levelsFor_eq 16777216 (by norm_num), hlog]
    norm_num
  · funext l
    show (0 : Nat) = restHand 0 l
    unfold restHand dig
    split <;> norm_num

/-- C4: on a 3-level wheel freshly created (hands at rest at global tick 0),
a timeout of `256³ + 19 = 16777235` — beyond the wheel's directly
representable span, so placed by the final-level clamp and later refined by
re-cascades — fires exactly once, on tick `16777235`, never earlier, and
leaves the reference unscheduled. -/
theorem clamp_exact_fire (i f a : Nat) (now : Int) :
    (∀ k, k < 16777235 →
      firedCount ((ttimer_tick^[k] (ttimer_start (ttimer_setfunc
          (ttimer_create 16777216 now) i f a) i 16777235)).log) i = 0
      ∧ ((ttimer_tick^[k] (ttimer_start (ttimer_setfunc
          (ttimer_create 16777216 now) i f a) i 16777235)).ents i).scheduled
        = true)
    ∧ firedCount ((ttimer_tick^[16777235] (ttimer_start (ttimer_setfunc
        (ttimer_create 16777216 now) i f a) i 16777235)).log) i = 1
    ∧ ((ttimer_tick^[16777235] (ttimer_start (ttimer_setfunc
        (ttimer_create 16777216 now) i f a) i 16777235)).ents i).scheduled
      = false := by
  have hw : ttimer_setfunc (ttimer_create 16777216 now) i f a
      = wheelAt 0 emptyBkt (Function.update (fun _ => Ent.mk 0 0 0 false) i
          (Ent.mk 0 f a false)) now [] := by
    rw [create_big_eq_wheelAt]
    rfl
  obtain ⟨l, b, rem, hstart, hl, hb, hreg, hdl⟩ :=
    start_place 0 16777235 i f a 0 (fun _ => Ent.mk 0 0 0 false) now []
      (by norm_num) (by norm_num)
  have hloaded : ttimer_start (ttimer_setfunc
        (ttimer_create 16777216 now) i f a) i 16777235
      = loaded 0 l b rem i f a (fun _ => Ent.mk 0 0 0 false) now [] := by
    rw [hw]
    exact hstart
  obtain ⟨hbefore, lg2, hafter, hcount⟩ :=
    fire_exact_core 16777235 0 l b rem i f a (fun _ => Ent.mk 0 0 0 false)
      now [] hl hb hreg hdl
  refine ⟨?_, ?_, ?_⟩
  · intro k hk
    have h1 := hbefore k hk
    rw [hloaded]
    exact ⟨by rw [h1.1]; rfl, h1.2⟩
  · rw [hloaded, hafter]
    show firedCount lg2 i = 1
    rw [hcount]
    rfl
  · rw [hloaded, hafter]
    show ((Function.update (fun _ => Ent.mk 0 0 0 false) i
      (Ent.mk 0 f a false)) i).scheduled = false
    rw [Function.update_same]

/- ## Same-bucket re-drain chains -/

/-- One drain pass over a single-timer bucket with nonzero remaining time:
the reference is popped and re-inserted where the placement loop puts it,
and the drain continues on that bucket. -/
theorem drainBucket_mix_one (T j l b i rem f a : Nat) (e0 : Nat → Ent)
    (lr : Int) (lg : List Ev) (hne0 : rem ≠ 0) :
    drainBucket (wheelMix T j (oneBkt l b i)
        (Function.update e0 i (Ent.mk rem f a true)) lr lg) l b
      = drainBucket (wheelMix T j
          (oneBkt (startLoop (handMix T j) 0 rem 0 1).1
            (startLoop (handMix T j) 0 rem 0 1).2.1 i)
          (Function.update e0 i
            (Ent.mk (startLoop (handMix T j) 0 rem 0 1).2.2 f a true)) lr
          (lg ++ [Ev.recascaded i l b rem
            (startLoop (handMix T j) 0 rem 0 1).1
            (startLoop (handMix T j) 0 rem 0 1).2.1
            (startLoop (handMix T j) 0 rem 0 1).2.2])) l b := by
  rw [drainBucket_cons_recascade
    (by rw [wheelMix_bucket]; exact oneBkt_same l b i)
    (by rw [wheelMix_ents, Function.update_same]; exact hne0)]
  refine congrArg (fun s => drainBucket s l b) ?_
  simp only [wheelMix_ents, Function.update_same]
  dsimp only
  simp only [unlink_mix, start_mix, wheelMix_hand, wheelMix_log]
  rfl

/-- One drain pass over a single-timer bucket whose reference has remaining
time 0: the callback fires and the bucket is left empty. -/
theorem drainBucket_mix_fire (T j l b i f a : Nat) (e0 : Nat → Ent) (lr : Int)
    (lg : List Ev) :
    drainBucket (wheelMix T j (oneBkt l b i)
        (Function.update e0 i (Ent.mk 0 f a true)) lr lg) l b
      = wheelMix T j emptyBkt (Function.update e0 i (Ent.mk 0 f a false)) lr
          (lg ++ [Ev.fired i l b]) := by
  rw [drainBucket_cons_fire
    (by rw [wheelMix_bucket]; exact oneBkt_same l b i)
    (by rw [wheelMix_ents, Function.update_same])]
  simp only [unlink_mix, wheelMix_log]
  rw [drainBucket_of_empty _ l b rfl]
  rfl

/-- The tick at global time 65536 on a wheel holding one timer in bucket 1 of
level 2 with remaining time 16842752 (the clamp placement of timeout
`2·256³ + 256² = 33619968` started on a fresh wheel): the reference is
re-inserted into the very bucket being drained with remaining 65536 — not
zero — popped again, re-inserted once more with remaining 0, and fired, all
within this one tick. -/
theorem tick_chain_65536 (i f a : Nat) (e0 : Nat → Ent) (lr : Int)
    (lg : List Ev) :
    ttimer_tick (loaded 65535 2 1 16842752 i f a e0 lr lg)
      = idle 65536 i f a e0 lr
          (lg ++ [Ev.recascaded i 2 1 16842752 2 1 65536,
            Ev.recascaded i 2 1 65536 2 1 0, Ev.fired i 2 1]) := by
  have hm0 : handMix 65535 2 0 = 0 := by
    unfold handMix
    norm_num [dig0_eq]
  have hm1 : handMix 65535 2 1 = 0 := by
    unfold handMix
    norm_num [dig1_eq]
  have hm2 : handMix 65535 2 2 = 0 := by
    unfold handMix
    norm_num [restHand2]
  have hpl1 : startLoop (handMix 65535 2) 0 16842752 0 1 = (2, 1, 65536) := by
    rw [startLoop_cascade _ 0 16842752 0 1 (by rw [hm0]; norm_num) (by norm_num)]
    rw [startLoop_cascade _ 1 _ _ _ (by rw [hm0, hm1]; norm_num) (by norm_num)]
    rw [startLoop_clamp _ 2 _ _ _ (by rw [hm0, hm1, hm2]; norm_num) (by norm_num)]
    rw [hm0, hm1, hm2]
  have hpl2 : startLoop (handMix 65535 2) 0 65536 0 1 = (2, 1, 0) := by
    rw [startLoop_cascade _ 0 65536 0 1 (by rw [hm0]; norm_num) (by norm_num)]
    rw [startLoop_cascade _ 1 _ _ _ (by rw [hm0, hm1]; norm_num) (by norm_num)]
    rw [startLoop_stop _ 2 _ _ _ (by rw [hm0, hm1, hm2])]
    rw [hm0, hm1, hm2]
  have hdivA : (65535 + 1) % 256 = 0 := by norm_num
  have hdivB : (65535 + 1) % 65536 = 0 := by norm_num
  have hdig : dig (65535 + 1) 2 = 1 := by
    rw [dig2_eq]
  have hdiv' : (65535 + 1) % 256 ^ 2 = 0 := by norm_num
  have hn := handMix_next 65535 2 (by norm_num) hdiv'
  unfold ttimer_tick
  rw [loaded_eq_mix]
  rw [tickFrom_reach1 65535 _ _ lr lg hdivA (oneBkt_other 2 1 i (by norm_num))]
  rw [tickFrom_reach2 65535 _ _ lr lg hdivB (oneBkt_other 2 1 i (by norm_num))]
  rw [tickFrom.eq_def]
  dsimp only
  simp only [wheelMix_hand, hn, hdig, setHand_levels, drainBucket_levels,
    wheelMix_levels]
  rw [if_neg (by norm_num)]
  rw [drainBucket_mix_one 65535 2 2 1 i 16842752 f a e0 lr lg (by norm_num)]
  rw [hpl1]
  dsimp only
  rw [drainBucket_mix_one 65535 2 2 1 i 65536 f a e0 lr
    (lg ++ [Ev.recascaded i 2 1 16842752 2 1 65536]) (by norm_num)]
  rw [hpl2]
  dsimp only
  rw [drainBucket_mix_fire 65535 2 2 1 i f a e0 lr
    ((lg ++ [Ev.recascaded i 2 1 16842752 2 1 65536])
      ++ [Ev.recascaded i 2 1 65536 2 1 0])]
  rw [setHand_to_mix _ 2 1 65535 (by norm_num) emptyBkt
    (Function.update e0 i (Ent.mk 0 f a false)) lr
    (((lg ++ [Ev.recascaded i 2 1 16842752 2 1 65536])
      ++ [Ev.recascaded i 2 1 65536 2 1 0]) ++ [Ev.fired i 2 1])
    rfl ?hh rfl rfl rfl rfl]
  case hh =>
    show Function.update (handMix 65535 2) 2 1 = handMix 65535 3
    rw [← hdig, handMix_step 65535 2 hdiv']
  refine TW.ext' rfl ?_ rfl rfl rfl ?_
  · rw [wheelMix_hand, handMix_three]
    show restHand (65535 + 1) = restHand 65536
    norm_num
  · rw [wheelMix_log]
    show ((lg ++ [Ev.recascaded i 2 1 16842752 2 1 65536])
        ++ [Ev.recascaded i 2 1 65536 2 1 0]) ++ [Ev.fired i 2 1]
      = lg ++ [Ev.recascaded i 2 1 16842752 2 1 65536,
          Ev.recascaded i 2 1 65536 2 1 0, Ev.fired i 2 1]
    simp

/-- A reachable run where a timer drained with nonzero remaining and
re-inserted into the currently processed bucket with remaining `65536 ≠ 0`
(so outside the claim's `remaining == 0` exemption) still fires within that
same tick: start timeout `2·256³ + 256² = 33619968` on a fresh full-size
wheel; ticks 1..65535 log nothing, and tick 65536 logs the two re-cascades
and the firing together. -/
theorem recascade_same_tick_fire_counterexample :
    (ttimer_tick^[65535] (ttimer_start (ttimer_setfunc
        (ttimer_create 16777216 0) 0 7 9) 0 33619968)).log = []
      ∧ (ttimer_tick^[65536] (ttimer_start (ttimer_setfunc
          (ttimer_create 16777216 0) 0 7 9) 0 33619968)).log
        = [Ev.recascaded 0 2 1 16842752 2 1 65536,
           Ev.recascaded 0 2 1 65536 2 1 0,
           Ev.fired 0 2 1] := by
  have hr0 : restHand 0 0 = 0 := by rw [restHand0]
  have hr1 : restHand 0 1 = 0 := by rw [restHand1]
  have hr2 : restHand 0 2 = 0 := by rw [restHand2]
  have he : ttimer_setfunc (ttimer_create 16777216 0) 0 7 9
      = wheelAt 0 emptyBkt (Function.update (fun _ => Ent.mk 0 0 0 false) 0
          (Ent.mk 0 7 9 false)) 0 [] := by
    rw [create_big_eq_wheelAt]
    rfl
  have hplF : startLoop (restHand 0) 0 33619968 0 1 = (2, 1, 16842752) := by
    rw [startLoop_cascade _ 0 33619968 0 1 (by rw [hr0]; norm_num) (by norm_num)]
    rw [startLoop_cascade _ 1 _ _ _ (by rw [hr0, hr1]; norm_num) (by norm_num)]
    rw [startLoop_clamp _ 2 _ _ _ (by rw [hr0, hr1, hr2]; norm_num) (by norm_num)]
    rw [hr0, hr1, hr2]
  have hplF' : startLoop (wheelAt 0 emptyBkt
      (Function.update (fun _ => Ent.mk 0 0 0 false) 0
        (Ent.mk 0 7 9 false)) 0 []).hand 0 33619968 0 1 = (2, 1, 16842752) := hplF
  have hstart : ttimer_start (ttimer_setfunc
        (ttimer_create 16777216 0) 0 7 9) 0 33619968
      = loaded 0 2 1 16842752 0 7 9 (fun _ => Ent.mk 0 0 0 false) 0 [] := by
    rw [he, ttimer_start_empty _ (fun _ => Ent.mk 0 0 0 false) 0 7 9 0
      33619968 rfl rfl, hplF']
    rfl
  have hdT : drainT 0 2 1 = 65536 := by norm_num [drainT]
  have hiter := tick_iter_no_touch 0 2 1 16842752 0 7 9
    (fun _ => Ent.mk 0 0 0 false) 0 [] (by norm_num) (by norm_num) 65535
    (by omega)
  constructor
  · rw [hstart, hiter]
    rfl
  · rw [show (65536 : Nat) = 65535 + 1 from by norm_num,
      Function.iterate_succ_apply']
    rw [hstart, hiter]
    rw [show (0 : Nat) + 65535 = 65535 from by norm_num]
    rw [tick_chain_65536]
    rfl

/-- C9: amended — from any regular single-timer state (remaining below the
level's span, which is what every in-span placement and re-cascade of the
tick loop itself produces), a timer drained with nonzero remaining is
re-inserted at a strictly lower level, its callback does not run in that
tick, it stays scheduled, and the log records exactly the re-cascade.  The
claim's blanket statement, with only the current-bucket `remaining == 0`
exemption, fails for the irregular remainders the final-level clamp creates
(see the same-tick chain counterexample). -/
theorem recascade_defers_fire (T l b rem i f a : Nat) (e0 : Nat → Ent)
    (lr : Int) (lg : List Ev) (hl : l < 3) (hb : b < 256)
    (hreg : rem < 256 ^ l) (hrm : rem ≠ 0) (hdr : drainT T l b = T + 1) :
    ∃ l2 b2 rem2,
      ttimer_tick (loaded T l b rem i f a e0 lr lg)
        = loaded (T + 1) l2 b2 rem2 i f a e0 lr
            (lg ++ [Ev.recascaded i l b rem l2 b2 rem2])
      ∧ l2 < l
      ∧ firedCount ((ttimer_tick (loaded T l b rem i f a e0 lr lg)).log) i
          = firedCount lg i
      ∧ ((ttimer_tick (loaded T l b rem i f a e0 lr lg)).ents i).scheduled
        = true := by
  have htick := tick_recascade T l b rem i f a e0 lr lg hl hb hreg hrm hdr
  have hl12 : l = 1 ∨ l = 2 := by
    interval_cases l
    · norm_num at hreg
      omega
    · exact Or.inl rfl
    · exact Or.inr rfl
  refine ⟨_, _, _, htick, ?_, ?_, ?_⟩
  · split_ifs with h256
    · rcases hl12 with rfl | rfl <;> omega
    · rcases hl12 with rfl | rfl
      · norm_num at hreg
        omega
      · omega
  · rw [htick, loaded_log, firedCount_append, firedCount_rec_nil]
    omega
  · rw [htick, loaded_ents, Function.update_same]

theorem recascade_defers_fire_witness :
    1 < 3 ∧ 1 < 256 ∧ 5 < 256 ^ 1 ∧ (5 : Nat) ≠ 0 ∧ drainT 255 1 1 = 255 + 1
      ∧ ∃ l2 b2 rem2,
          ttimer_tick (loaded 255 1 1 5 0 1 0
              (fun _ => Ent.mk 0 0 0 false) 0 [])
            = loaded (255 + 1) l2 b2 rem2 0 1 0
                (fun _ => Ent.mk 0 0 0 false) 0
                ([] ++ [Ev.recascaded 0 1 1 5 l2 b2 rem2])
          ∧ l2 < 1
          ∧ firedCount ((ttimer_tick (loaded 255 1 1 5 0 1 0
              (fun _ => Ent.mk 0 0 0 false) 0 [])).log) 0 = firedCount [] 0
          ∧ ((ttimer_tick (loaded 255 1 1 5 0 1 0
              (fun _ => Ent.mk 0 0 0 false) 0 [])).ents 0).scheduled = true :=
  ⟨by norm_num, by norm_num, by norm_num, by norm_num, by norm_num [drainT],
    recascade_defers_fire 255 1 1 5 0 1 0 (fun _ => Ent.mk 0 0 0 false) 0 []
      (by norm_num) (by norm_num) (by norm_num) (by norm_num)
      (by norm_num [drainT])⟩

/- ## The scheduling invariant (one bucket per scheduled reference) -/

/-- How many times reference `i` is linked across the wheel's cells. -/
def occ (w : TW) (i : Nat) : Nat :=
  ∑ l ∈ Finset.range 3, ∑ b ∈ Finset.range 256, (w.bucket l b).count i

/-- The data-structure invariant: every reference is linked into at most one
bucket, and its `scheduled` flag is true exactly when it is linked into
exactly one. -/
def Inv (w : TW) : Prop :=
  ∀ i, occ w i ≤ 1 ∧ ((w.ents i).scheduled = true ↔ occ w i = 1)

theorem ttimer_start_bucket (w : TW) (id t : Nat) :
    (ttimer_start w id t).bucket
      = Function.update w.bucket (startLoop w.hand 0 t 0 1).1
          (Function.update (w.bucket (startLoop w.hand 0 t 0 1).1)
            (startLoop w.hand 0 t 0 1).2.1
            (id :: w.bucket (startLoop w.hand 0 t 0 1).1
              (startLoop w.hand 0 t 0 1).2.1)) := rfl

theorem ttimer_start_ents (w : TW) (id t : Nat) :
    (ttimer_start w id t).ents
      = Function.update w.ents id
          (Ent.mk (startLoop w.hand 0 t 0 1).2.2
            (w.ents id).func (w.ents id).arg true) := rfl

theorem unlink_bucket (w : TW) (id : Nat) :
    (unlink w id).bucket = fun l s => (w.bucket l s).erase id := rfl

theorem unlink_ents (w : TW) (id : Nat) :
    (unlink w id).ents
      = Function.update w.ents id
          (Ent.mk (w.ents id).remaining (w.ents id).func
            (w.ents id).arg false) := rfl

theorem startLoop_bucket_lt (hand : Nat → Nat) (t : Nat) :
    (startLoop hand 0 t 0 1).2.1 < 256 := by
  rw [startLoop_spec]
  split_ifs <;> dsimp only <;> exact Nat.mod_lt _ (by norm_num)

/-- Inserting one reference at the head of one in-range cell raises its own
link count by one and no other's. -/
theorem occSum_update (B : Nat → Nat → List Nat) (p1 p21 x j : Nat)
    (h1 : p1 < 3) (h2 : p21 < 256) :
    (∑ l ∈ Finset.range 3, ∑ b ∈ Finset.range 256,
        ((Function.update B p1 (Function.update (B p1) p21
          (x :: B p1 p21))) l b).count j)
      = (∑ l ∈ Finset.range 3, ∑ b ∈ Finset.range 256, (B l b).count j)
        + (if j = x then 1 else 0) := by
  have hmem1 : p1 ∈ Finset.range 3 := Finset.mem_range.mpr h1
  have hmem2 : p21 ∈ Finset.range 256 := Finset.mem_range.mpr h2
  rw [← Finset.sum_erase_add _ _ hmem1, ← Finset.sum_erase_add _ _ hmem1]
  have houter : ∀ l ∈ (Finset.range 3).erase p1,
      (∑ b ∈ Finset.range 256, ((Function.update B p1
          (Function.update (B p1) p21 (x :: B p1 p21))) l b).count j)
        = ∑ b ∈ Finset.range 256, (B l b).count j := by
    intro l hl
    rw [Function.update_noteq (Finset.mem_erase.mp hl).1]
  rw [Finset.sum_congr rfl houter, Function.update_same]
  rw [← Finset.sum_erase_add _ _ hmem2, ← Finset.sum_erase_add _ _ hmem2]
  have hinner : ∀ b ∈ (Finset.range 256).erase p21,
      ((Function.update (B p1) p21 (x :: B p1 p21)) b).count j
        = (B p1 b).count j := by
    intro b hb
    rw [Function.update_noteq (Finset.mem_erase.mp hb).1]
  rw [Finset.sum_congr rfl hinner, Function.update_same]
  rcases eq_or_ne j x with rfl | hne
  · rw [List.count_cons_self, if_pos rfl]
    omega
  · rw [List.count_cons_of_ne hne, if_neg hne]
    omega

theorem occ_start (w : TW) (id t j : Nat) :
    occ (ttimer_start w id t) j = occ w j + (if j = id then 1 else 0) := by
  unfold occ
  rw [ttimer_start_bucket]
  exact occSum_update w.bucket (startLoop w.hand 0 t 0 1).1
    (startLoop w.hand 0 t 0 1).2.1 id j
    (startLoop_level_lt w.hand t) (startLoop_bucket_lt w.hand t)

theorem occ_unlink_ne (w : TW) (id j : Nat) (hne : j ≠ id) :
    occ (unlink w id) j = occ w j := by
  unfold occ
  rw [unlink_bucket]
  refine Finset.sum_congr rfl fun l _ => Finset.sum_congr rfl fun b _ => ?_
  exact List.count_erase_of_ne hne _

theorem occ_unlink_self (w : TW) (id : Nat) (h : occ w id ≤ 1) :
    occ (unlink w id) id = 0 := by
  unfold occ at h ⊢
  rw [unlink_bucket]
  have hcell : ∀ l ∈ Finset.range 3, ∀ b ∈ Finset.range 256,
      (w.bucket l b).count id ≤ 1 := by
    intro l hl b hb
    have hrow : (w.bucket l b).count id
        ≤ ∑ b2 ∈ Finset.range 256, (w.bucket l b2).count id := by
      apply Finset.single_le_sum _ hb
      intro j _
      exact Nat.zero_le _
    have hall : (∑ b2 ∈ Finset.range 256, (w.bucket l b2).count id)
        ≤ ∑ l2 ∈ Finset.range 3, ∑ b2 ∈ Finset.range 256,
            (w.bucket l2 b2).count id := by
      apply Finset.single_le_sum _ hl
      intro j _
      exact Nat.zero_le _
    omega
  refine Finset.sum_eq_zero fun l hl => Finset.sum_eq_zero fun b hb => ?_
  rw [List.count_erase_self]
  have := hcell l hl b hb
  omega

theorem Inv_unlink (w : TW) (id : Nat) (h : Inv w) : Inv (unlink w id) := by
  intro j
  rcases eq_or_ne j id with rfl | hne
  · have h0 : occ (unlink w j) j = 0 := occ_unlink_self w j (h j).1
    refine ⟨by omega, ?_⟩
    rw [h0]
    constructor
    · intro hs
      rw [unlink_ents, Function.update_same] at hs
      exact absurd hs (by simp)
    · intro h01
      exact absurd h01 (by norm_num)
  · have hocc := occ_unlink_ne w id j hne
    have hents : ((unlink w id).ents j).scheduled = (w.ents j).scheduled := by
      rw [unlink_ents, Function.update_noteq hne]
    rw [hocc, hents]
    exact h j

theorem Inv_start (w : TW) (id t : Nat) (h : Inv w)
    (hs : (w.ents id).scheduled = false) : Inv (ttimer_start w id t) := by
  have h0 : occ w id = 0 := by
    have h1 := (h id).1
    have h2 := (h id).2
    rw [hs] at h2
    have h3 : occ w id ≠ 1 := fun hc => by simp [hc] at h2
    omega
  intro j
  have hocc := occ_start w id t j
  rcases eq_or_ne j id with rfl | hne
  · rw [if_pos rfl] at hocc
    have hsch : ((ttimer_start w j t).ents j).scheduled = true := by
      rw [ttimer_start_ents, Function.update_same]
    refine ⟨by omega, ?_⟩
    rw [hsch, hocc, h0]
    simp
  · rw [if_neg hne] at hocc
    have hsch : ((ttimer_start w id t).ents j).scheduled
        = (w.ents j).scheduled := by
      rw [ttimer_start_ents, Function.update_noteq hne]
    rw [hsch, hocc]
    have := h j
    constructor
    · omega
    · rw [Nat.add_zero]
      exact this.2

theorem Inv_stop (w : TW) (id : Nat) (h : Inv w) : Inv (ttimer_stop w id).2 := by
  unfold ttimer_stop
  split_ifs with hs
  · exact Inv_unlink w id h
  · exact h

theorem Inv_drainBucket (w : TW) (level n : Nat) :
    Inv w → Inv (drainBucket w level n) := by
  induction w, level, n using drainBucket.induct with
  | case1 w level n hb =>
    intro h
    rwa [drainBucket_nil hb]
  | case2 w level n id tl hb hr ih =>
    intro h
    rw [drainBucket_cons_recascade hb hr]
    refine ih ?_
    have h3 : ((unlink w id).ents id).scheduled = false := by
      rw [unlink_ents, Function.update_same]
    exact Inv_start (unlink w id) id ((w.ents id).remaining)
      (Inv_unlink w id h) h3
  | case3 w level n id tl hb hr ih =>
    intro h
    rw [drainBucket_cons_fire hb (by simpa using hr)]
    exact ih (Inv_unlink w id h)

theorem Inv_tickFrom (w : TW) (level : Nat) : Inv w → Inv (tickFrom w level) := by
  induction w, level using tickFrom.induct with
  | case1 w level n w2 hcond ih =>
    intro h
    unfold_let n w2 at hcond
    rw [tickFrom.eq_def]
    dsimp only
    rw [if_pos hcond]
    exact ih (Inv_drainBucket w level _ h)
  | case2 w level n w2 hcond =>
    intro h
    unfold_let n w2 at hcond
    rw [tickFrom.eq_def]
    dsimp only
    rw [if_neg hcond]
    exact Inv_drainBucket w level _ h

theorem Inv_create (m now : Int) : Inv (ttimer_create m now) := by
  intro i
  have h0 : occ (ttimer_create m now) i = 0 := by
    unfold occ
    refine Finset.sum_eq_zero fun l _ => Finset.sum_eq_zero fun b _ => ?_
    rfl
  rw [h0]
  exact ⟨by omega, by simp [ttimer_create]⟩

/-- C8: the scheduling invariant — every reference linked into at most one
bucket cell, with `scheduled` true exactly when linked into exactly one — is
preserved by `ttimer_start` (under its precondition that the reference is
not already scheduled), by `ttimer_stop`, and by `ttimer_tick` (whose drain
loop unlinks each popped reference before any re-insertion). -/
theorem schedule_invariant (w : TW) (id t : Nat) (h : Inv w) :
    ((w.ents id).scheduled = false → Inv (ttimer_start w id t))
      ∧ Inv (ttimer_stop w id).2 ∧ Inv (ttimer_tick w) :=
  ⟨fun hs => Inv_start w id t h hs, Inv_stop w id h, Inv_tickFrom w 0 h⟩

theorem schedule_invariant_witness :
    Inv (ttimer_create 100 0)
      ∧ ((((ttimer_create 100 0).ents 0).scheduled = false
          → Inv (ttimer_start (ttimer_create 100 0) 0 5))
        ∧ Inv (ttimer_stop (ttimer_create 100 0) 0).2
        ∧ Inv (ttimer_tick (ttimer_create 100 0))) :=
  ⟨Inv_create 100 0,
    schedule_invariant (ttimer_create 100 0) 0 5 (Inv_create 100 0)⟩

end TTimer
